import Mathlib

/-!
Verification of the feature-engineering core of the Brasileirao repository
(src/processing/features.py and src/processing/coordinates.py), as a shallow
embedding: pandas DataFrames become lists of records, Timestamps become integer
day numbers, floats become rationals (reals appear only inside the haversine
trigonometry), and nullable cells become Option values.  `df.sort_values`
is modelled as a stable insertion sort (pandas ties on equal keys are not
otherwise observable through the properties proved here).
-/

/-- Python str.lower, covering ASCII and the Latin-1 letters used by team
names (Python lowercases the accented capitals as well). -/
def pyLowerChar (c : Char) : Char :=
  if 65 ≤ c.toNat ∧ c.toNat ≤ 90 then Char.ofNat (c.toNat + 32)
  else if 0xC0 ≤ c.toNat ∧ c.toNat ≤ 0xDE ∧ c.toNat ≠ 0xD7 then Char.ofNat (c.toNat + 32)
  else c

/-- Python str.lower on a whole string. -/
def pyLower (s : String) : String :=
  String.mk (s.toList.map pyLowerChar)

/-- Python str.upper, covering ASCII and Latin-1 letters. -/
def pyUpperChar (c : Char) : Char :=
  if 97 ≤ c.toNat ∧ c.toNat ≤ 122 then Char.ofNat (c.toNat - 32)
  else if 0xE0 ≤ c.toNat ∧ c.toNat ≤ 0xFE ∧ c.toNat ≠ 0xF7 then Char.ofNat (c.toNat - 32)
  else c

/-- Python str.upper on a whole string. -/
def pyUpper (s : String) : String :=
  String.mk (s.toList.map pyUpperChar)

section StableSortDefs

variable {α : Type} (lt : α → α → Bool)

/-- Insert an element into a sorted list, placing it before the first element
that is not strictly below it; inserting elements of a list right-to-left
yields a stable sort. -/
def insertOrd (m : α) : List α → List α
  | [] => [m]
  | x :: xs => if lt x m then x :: insertOrd m xs else m :: x :: xs

/-- Stable sort by the strict comparison `lt` (ties keep input order), the
model of `df.sort_values`. -/
def stableSort : List α → List α
  | [] => []
  | m :: rest => insertOrd lt m (stableSort rest)

end StableSortDefs

/-- A row of the primary match table (the MatchRecord of the spec): the date is
an integer day number, goals and expected goals are nullable rationals, and the
round is absent, an integer, or a free-text token. -/
structure MatchRow where
  id_partida : Nat
  data : Int
  time_casa : String
  time_fora : String
  gols_casa : Option ℚ
  gols_fora : Option ℚ
  xG_casa : Option ℚ
  xG_fora : Option ℚ
  cidade_jogo : String
  rodada : Option (Int ⊕ String)
  deriving DecidableEq

/-- Strict comparison on the `data` (date) column, the key of
`df.sort_values("data")` in compute_rest_days. -/
def matchLt (a b : MatchRow) : Bool := decide (a.data < b.data)

/-- One output row of compute_rest_days: the match together with the two new
columns rest_days_home and rest_days_away. -/
abbrev RestRow := MatchRow × Option Int × Option Int

/-- The dictionary update `last_played[home] = match_date;
last_played[away] = match_date` performed at the end of each loop iteration of
compute_rest_days. -/
def lastUpd (m : MatchRow) (last : String → Option Int) : String → Option Int :=
  fun t => if t = m.time_casa ∨ t = m.time_fora then some m.data else last t

/-- The scan loop of compute_rest_days over the date-sorted table, carrying the
`last_played` dictionary. -/
def restDaysAux (last : String → Option Int) : List MatchRow → List RestRow
  | [] => []
  | m :: rest =>
    (m, (last m.time_casa).map (fun d => m.data - d),
        (last m.time_fora).map (fun d => m.data - d)) :: restDaysAux (lastUpd m last) rest

/-- compute_rest_days (src/processing/features.py lines 105-130): sort the
copied table by date, then scan it maintaining `last_played`. -/
def compute_rest_days (l : List MatchRow) : List RestRow :=
  restDaysAux (fun _ => none) (stableSort matchLt l)

/-- Whether team `t` plays in match `m` on either side. -/
def matchInvolves (t : String) (m : MatchRow) : Bool :=
  t = m.time_casa || t = m.time_fora

/-- The rest-days value of the side of match `r` played by team `t` (home if
`t` is the home team, away otherwise). -/
def tSideVal (t : String) (r : RestRow) : Option Int :=
  if r.1.time_casa = t then r.2.1 else r.2.2

/-- Checker for the per-team rest-days contract: along a team's rows, the
first value is `prev`-derived (null when `prev` is null), every later value is
the day difference from the immediately preceding row of that team, and dates
never decrease (so the differences are non-negative). -/
def restChainOk (t : String) : Option Int → List RestRow → Bool
  | _, [] => true
  | prev, r :: rs =>
    tSideVal t r == prev.map (fun d => r.1.data - d)
    && (match prev with
        | none => true
        | some d => decide (d ≤ r.1.data))
    && restChainOk t (some r.1.data) rs

/-- The `last_played` state after scanning a list of matches. -/
def lastAfter : List MatchRow → (String → Option Int) → (String → Option Int)
  | [], last => last
  | m :: rest, last => lastAfter rest (lastUpd m last)

/-- The rest-days output row carrying a given match id (the row a caller reads
back for a match). -/
def restRowFor (l : List MatchRow) (i : Nat) : Option RestRow :=
  (compute_rest_days l).find? (fun r => r.1.id_partida == i)

/-- One row of the long (per-team per-match) table built by
compute_rolling_stats: the team's view of one match. -/
structure Obs where
  id_partida : Nat
  team : String
  goals_for : Option ℚ
  goals_against : Option ℚ
  xg_for : Option ℚ
  xg_against : Option ℚ
  data : Int
  side : Bool
  deriving DecidableEq

/-- The home-side long row of a match. -/
def homeObs (m : MatchRow) : Obs :=
  ⟨m.id_partida, m.time_casa, m.gols_casa, m.gols_fora, m.xG_casa, m.xG_fora, m.data, true⟩

/-- The away-side long row of a match. -/
def awayObs (m : MatchRow) : Obs :=
  ⟨m.id_partida, m.time_fora, m.gols_fora, m.gols_casa, m.xG_fora, m.xG_casa, m.data, false⟩

/-- The wide-to-long reshape of compute_rolling_stats (two rows per match, in
match order). -/
def longRows : List MatchRow → List Obs
  | [] => []
  | m :: rest => homeObs m :: awayObs m :: longRows rest

/-- Lexicographic code-point comparison of character lists (the order Python
uses to compare strings). -/
def charListLt : List Char → List Char → Bool
  | _, [] => false
  | [], _ :: _ => true
  | a :: as, b :: bs =>
    decide (a.toNat < b.toNat) || (a.toNat == b.toNat && charListLt as bs)

/-- Python string comparison, the comparator behind sorting by team name. -/
def strLt (s t : String) : Bool := charListLt s.toList t.toList

/-- Strict lexicographic comparison on (team, date), the key of
`sort_values(["team", "data"])`. -/
def obsLt (a b : Obs) : Bool :=
  strLt a.team b.team || (a.team == b.team && decide (a.data < b.data))

/-- The non-null entries of the length-`w` window ending just before
position `i` of a series (the series having been shifted by one). -/
def windowVals (w : Nat) (s : List (Option ℚ)) (i : Nat) : List ℚ :=
  ((s.take i).drop (i - w)).filterMap id

/-- One cell of `_rolling_mean_shifted` (features.py lines 133-134):
`series.shift(1).rolling(window=w, min_periods=1).mean()` at position `i` is
the mean of the non-null values among the up-to-`w` entries strictly before
`i`, and null when no such value exists. -/
def rollAt (w : Nat) (s : List (Option ℚ)) (i : Nat) : Option ℚ :=
  if (windowVals w s i).isEmpty then none
  else some ((windowVals w s i).sum / (windowVals w s i).length)

/-- The four new per-side columns of compute_rolling_stats for one (match,
side) pair. -/
structure RollCols where
  goals_for : Option ℚ
  goals_against : Option ℚ
  xg_for : Option ℚ
  xg_against : Option ℚ
  deriving DecidableEq

/-- The four shifted rolling means of one team's group, read at position `i`
of the group. -/
def rollColsAt (w : Nat) (g : List Obs) (i : Nat) : RollCols :=
  ⟨rollAt w (g.map (fun o => o.goals_for)) i,
   rollAt w (g.map (fun o => o.goals_against)) i,
   rollAt w (g.map (fun o => o.xg_for)) i,
   rollAt w (g.map (fun o => o.xg_against)) i⟩

/-- Positional attachment of the four transform columns to a group's rows. -/
def groupRolledAux (w : Nat) (g : List Obs) : Nat → List Obs → List (Obs × RollCols)
  | _, [] => []
  | i, o :: rest => (o, rollColsAt w g i) :: groupRolledAux w g (i + 1) rest

/-- The `groupby("team").transform(_rolling_mean_shifted)` columns attached to
each observation of one team's group `g` (in sorted order). -/
def groupRolled (w : Nat) (g : List Obs) : List (Obs × RollCols) :=
  groupRolledAux w g 0 g

/-- The team keys of the long table. -/
def teamsOf (l : List Obs) : List String := (l.map (fun o => o.team)).dedup

/-- The fully transformed long table: every team's group with its four
rolling columns. -/
def rolledLong (w : Nat) (l : List MatchRow) : List (Obs × RollCols) :=
  (teamsOf (stableSort obsLt (longRows l))).flatMap
    (fun t => groupRolled w ((stableSort obsLt (longRows l)).filter (fun o => o.team = t)))

/-- The all-null join result pandas produces for an unmatched index key. -/
def emptyRoll : RollCols := ⟨none, none, none, none⟩

/-- The `.join(home_stats)` / `.join(away_stats)` lookup by (match id, side). -/
def lookupRoll (rl : List (Obs × RollCols)) (i : Nat) (sd : Bool) : RollCols :=
  match rl.find? (fun p => p.1.id_partida == i && p.1.side == sd) with
  | some p => p.2
  | none => emptyRoll

/-- compute_rolling_stats (features.py lines 137-200): reshape to the long
table, sort by (team, date), attach the per-team shifted rolling means, and
join them back onto each match of the (unsorted) copy by (match id, side). -/
def compute_rolling_stats (w : Nat) (l : List MatchRow) : List (MatchRow × RollCols × RollCols) :=
  l.map (fun m => (m, lookupRoll (rolledLong w l) m.id_partida true,
                      lookupRoll (rolledLong w l) m.id_partida false))

/-- The long row of match `m` on side `sd` (true = home). -/
def sideObs (sd : Bool) (m : MatchRow) : Obs := if sd then homeObs m else awayObs m

/-- The join key on long rows: match id and side. -/
def keyP (i : Nat) (sd : Bool) : Obs → Bool :=
  fun o => o.id_partida == i && o.side == sd

/-- The restriction of a team's sorted long-table group to observations dated
not later than `d`; it is determined by the `data ≤ d` restriction of the
input match table alone. -/
def groupLE (l : List MatchRow) (t : String) (d : Int) : List Obs :=
  (stableSort obsLt (longRows (l.filter (fun m => decide (m.data ≤ d))))).filter
    (fun o => o.team = t)

/-- A row of the player-statistics table (PlayerStatRecord of the spec). -/
structure PlayerStat where
  id_partida : Nat
  id_jogador : Int
  time : String
  gols : Int
  assistencias : Int
  deriving DecidableEq

/-- One entry of a key_players output list. -/
structure KeyPlayer where
  id_jogador : Int
  gols : Int
  assistencias : Int
  score : Int
  deriving DecidableEq

/-- `team_matches`: one team's chronologically ordered match ids, built by
appending the home and then the away id of each row of the date-sorted table
(a team facing itself would be appended twice, as in the source). -/
def teamMatchIds (t : String) : List MatchRow → List Nat
  | [] => []
  | m :: rest =>
    (if m.time_casa = t then [m.id_partida] else []) ++
    (if m.time_fora = t then [m.id_partida] else []) ++ teamMatchIds t rest

/-- `match_date_map = df.set_index("id_partida")["data"].to_dict()`: date by
match id, the last occurrence winning on duplicate ids. -/
def matchDateMap (l : List MatchRow) (i : Nat) : Option Int :=
  (l.reverse.find? (fun m => m.id_partida == i)).map (fun m => m.data)

/-- `history_ids`: the team's match ids whose mapped date is strictly before
`d`. -/
def historyIds (l : List MatchRow) (t : String) (d : Int) : List Nat :=
  (teamMatchIds t (stableSort matchLt l)).filter (fun mid =>
    match matchDateMap l mid with
    | some dm => decide (dm < d)
    | none => false)

/-- Python `xs[-w:]` (the whole list when `w = 0`). -/
def lastN {α : Type} (w : Nat) (xs : List α) : List α :=
  if w = 0 then xs else xs.drop (xs.length - w)

/-- The boolean mask of compute_key_players: player-stat rows of the team
within the recent match ids. -/
def qualifyingRows (ps : List PlayerStat) (team : String) (recent : List Nat) :
    List PlayerStat :=
  ps.filter (fun r => r.time == team && recent.contains r.id_partida)

/-- Strict descending comparison on (score, goals): `a` ranks strictly above
`b`. -/
def keyLt (a b : KeyPlayer) : Bool :=
  decide (b.score < a.score ∨ (b.score = a.score ∧ b.gols < a.gols))

/-- Ascending comparison of player ids (pandas groupby sorts its keys). -/
def pidLt (a b : Int) : Bool := decide (a < b)

/-- The grouped, scored, ranked and truncated key-players list for one
(match, side): features.py lines 240-264. -/
def keyListFor (ps : List PlayerStat) (team : String) (recent : List Nat) (top_n : Nat) :
    List KeyPlayer :=
  let rows := qualifyingRows ps team recent
  if rows.isEmpty then []
  else
    let pids := stableSort pidLt ((rows.map (fun r => r.id_jogador)).dedup)
    let grouped := pids.map (fun pid =>
      let g := rows.filter (fun r => r.id_jogador == pid)
      let gl := (g.map (fun r => r.gols)).sum
      let asst := (g.map (fun r => r.assistencias)).sum
      KeyPlayer.mk pid gl asst (gl + asst))
    (stableSort keyLt grouped).take top_n

/-- compute_key_players (features.py lines 203-268). -/
def compute_key_players (l : List MatchRow) (ps : List PlayerStat) (w top_n : Nat) :
    List (MatchRow × List KeyPlayer × List KeyPlayer) :=
  l.map (fun m =>
    let d := (matchDateMap l m.id_partida).getD 0
    (m, keyListFor ps m.time_casa (lastN w (historyIds l m.time_casa d)) top_n,
        keyListFor ps m.time_fora (lastN w (historyIds l m.time_fora d)) top_n))

/-- The rolling-stats output row carrying a given match id. -/
def rollRowFor (w : Nat) (l : List MatchRow) (i : Nat) :
    Option (MatchRow × RollCols × RollCols) :=
  (compute_rolling_stats w l).find? (fun r => r.1.id_partida == i)

/-- The key-players output row carrying a given match id. -/
def keyRowFor (l : List MatchRow) (ps : List PlayerStat) (w top_n : Nat) (i : Nat) :
    Option (MatchRow × List KeyPlayer × List KeyPlayer) :=
  (compute_key_players l ps w top_n).find? (fun r => r.1.id_partida == i)

/-- First same-date match of team T in the counterexample table. -/
def cexA : MatchRow := ⟨1, 10, "T", "U", none, none, none, none, "", none⟩

/-- Second same-date match of team T in the counterexample table. -/
def cexB : MatchRow := ⟨2, 10, "T", "V", none, none, none, none, "", none⟩

/-- A later match, used by the C1 witness. -/
def cexC : MatchRow := ⟨3, 99, "T", "U", none, none, none, none, "", none⟩

/-- The sorted long-table group of one team. -/
def teamGroup (l : List MatchRow) (t : String) : List Obs :=
  (stableSort obsLt (longRows l)).filter (fun o => o.team = t)

/-- First match for the C2 witness (team A scores 2 at home). -/
def cexD : MatchRow := ⟨1, 1, "A", "B", some 2, some 0, none, none, "", none⟩

/-- Second match for the C2 witness. -/
def cexE : MatchRow := ⟨2, 5, "A", "C", some 7, some 1, none, none, "", none⟩

/-- A row of the caller-supplied team-coordinates override table. -/
structure TeamInfo where
  nome_time : String
  latitude : ℚ
  longitude : ℚ
  deriving DecidableEq

/-- Exact-key lookup in a table with string keys (a Python dict access). -/
def lookupStr {α : Type} (table : List (String × α)) (k : String) : Option α :=
  (table.find? (fun e => e.1 == k)).map (fun e => e.2)

/-- TEAM_COORDINATES of src/processing/coordinates.py. -/
def TEAM_COORDINATES : List (String × ℚ × ℚ) :=
  [("Flamengo", -22.9068, -43.1729),
   ("Fluminense", -22.9068, -43.1729),
   ("Botafogo", -22.9068, -43.1729),
   ("Vasco", -22.9068, -43.1729),
   ("Palmeiras", -23.5505, -46.6333),
   ("Corinthians", -23.5505, -46.6333),
   ("São Paulo", -23.5505, -46.6333),
   ("Santos", -23.9608, -46.3339),
   ("Red Bull Bragantino", -22.9519, -46.5419),
   ("Grêmio", -30.0346, -51.2177),
   ("Internacional", -30.0346, -51.2177),
   ("Atlético-MG", -19.9167, -43.9345),
   ("Cruzeiro", -19.9167, -43.9345),
   ("América-MG", -19.9167, -43.9345),
   ("Athletico-PR", -25.4290, -49.2671),
   ("Coritiba", -25.4290, -49.2671),
   ("Bahia", -12.9714, -38.5014),
   ("Vitória", -12.9714, -38.5014),
   ("Fortaleza", -3.7172, -38.5433),
   ("Ceará", -3.7172, -38.5433),
   ("Cuiabá", -15.6014, -56.0978),
   ("Goiás", -16.6869, -49.2648),
   ("Atlético-GO", -16.6869, -49.2648),
   ("Sport", -8.0578, -34.8778),
   ("Juventude", -29.1678, -51.1794),
   ("Criciúma", -28.6775, -49.3703),
   ("Avaí", -27.5954, -48.5480),
   ("Chapecoense", -27.1004, -52.6152)]

/-- CAPITAL_COORDINATES of src/processing/coordinates.py. -/
def CAPITAL_COORDINATES : List (String × ℚ × ℚ) :=
  [("AC", -9.97499, -67.8076),
   ("AL", -9.66599, -35.735),
   ("AP", 0.034934, -51.0694),
   ("AM", -3.11866, -60.0212),
   ("BA", -12.9711, -38.5108),
   ("CE", -3.71722, -38.5431),
   ("DF", -15.7797, -47.9297),
   ("ES", -20.3155, -40.3128),
   ("GO", -16.6869, -49.2648),
   ("MA", -2.52972, -44.3028),
   ("MT", -15.601, -56.0974),
   ("MS", -20.4428, -54.6464),
   ("MG", -19.9209, -43.9378),
   ("PA", -1.45502, -48.5024),
   ("PB", -7.11532, -34.861),
   ("PR", -25.4284, -49.2733),
   ("PE", -8.05428, -34.8813),
   ("PI", -5.08921, -42.8016),
   ("RJ", -22.9068, -43.1729),
   ("RN", -5.795, -35.2094),
   ("RS", -30.0331, -51.23),
   ("RO", -8.76116, -63.9039),
   ("RR", 2.81954, -60.6733),
   ("SC", -27.5945, -48.5477),
   ("SP", -23.5505, -46.6333),
   ("SE", -10.9111, -37.0717),
   ("TO", -10.1844, -48.3336)]

/-- The override-table branch of _resolve_team_coords: first row whose
lowercased nome_time equals the lowercased team name, skipped when the table
is missing or empty. -/
def overrideLookup (teams_info : Option (List TeamInfo)) (team : String) :
    Option (ℚ × ℚ) :=
  match teams_info with
  | none => none
  | some rows =>
    if rows.isEmpty then none
    else (rows.find? (fun r => pyLower r.nome_time == pyLower team)).map
      (fun r => (r.latitude, r.longitude))

/-- _resolve_team_coords (features.py lines 37-49): the override table first,
then the static table by exact key, else null. -/
def resolve_team_coords (team : String) (teams_info : Option (List TeamInfo)) :
    Option (ℚ × ℚ) :=
  match overrideLookup teams_info team with
  | some c => some c
  | none => lookupStr TEAM_COORDINATES team

/-- _resolve_city_coords (features.py lines 52-59): null on a missing or empty
hint, else the capital coordinate of the uppercased state code (the city
argument of the source is unused). -/
def resolve_city_coords (capital_hint : Option String) : Option (ℚ × ℚ) :=
  match capital_hint with
  | none => none
  | some h => if h.toList.isEmpty then none else lookupStr CAPITAL_COORDINATES (pyUpper h)

/-- Whether the character list `needle` is an initial segment of the second
list. -/
def startsWithChars : List Char → List Char → Bool
  | [], _ => true
  | _ :: _, [] => false
  | a :: as, b :: bs => a == b && startsWithChars as bs

/-- Python str.replace (leftmost, non-overlapping) on character lists, fuel
bounded so that it evaluates by reduction; the fuel is the input length, which
suffices for every non-empty pattern. -/
def replaceCharsAux (pat repl : List Char) : Nat → List Char → List Char
  | 0, s => s
  | fuel + 1, s =>
    match s with
    | [] => []
    | c :: rest =>
      if startsWithChars pat s then repl ++ replaceCharsAux pat repl fuel (s.drop pat.length)
      else c :: replaceCharsAux pat repl fuel rest

/-- Python str.replace. -/
def pyReplace (s pat repl : String) : String :=
  String.mk (replaceCharsAux pat.toList repl.toList s.toList.length s.toList)

/-- Drop leading whitespace of a character list. -/
def dropWhileWs : List Char → List Char
  | [] => []
  | c :: rest => if c.isWhitespace then dropWhileWs rest else c :: rest

/-- Python str.strip. -/
def pyStrip (s : String) : String :=
  String.mk ((dropWhileWs ((dropWhileWs s.toList).reverse)).reverse)

/-- normalize_team_name (features.py lines 13-21): replace dashes by spaces,
drop dots, drop the literal substring FC (the F.C. replacement can never match
after the dots are gone), strip, lowercase. -/
def normalize_team_name (name : String) : String :=
  pyLower (pyStrip (pyReplace (pyReplace (pyReplace (pyReplace name ("-") (" "))
    (".") ("")) ("FC") ("")) ("F.C.") ("")))

/-- Python banker's rounding (round-half-to-even) to an integer. -/
def bankerRound {α : Type} [LinearOrderedField α] [FloorRing α] (x : α) : ℤ :=
  if x - ⌊x⌋ < 1 / 2 then ⌊x⌋
  else if 1 / 2 < x - ⌊x⌋ then ⌊x⌋ + 1
  else if ⌊x⌋ % 2 = 0 then ⌊x⌋ else ⌊x⌋ + 1

/-- Python round(x, n). -/
def pyRound {α : Type} [LinearOrderedField α] [FloorRing α] (x : α) (n : Nat) : α :=
  ((bankerRound (x * 10 ^ n) : ℤ) : α) / 10 ^ n

/-- math.radians. -/
noncomputable def radians (x : ℝ) : ℝ := x * Real.pi / 180

/-- haversine_distance_km (features.py lines 24-34). -/
noncomputable def haversine_distance_km (lat1 lon1 lat2 lon2 : ℝ) : ℝ :=
  let r : ℝ := 6371
  let dLat := radians (lat2 - lat1)
  let dLon := radians (lon2 - lon1)
  let lat1r := radians lat1
  let lat2r := radians lat2
  let a := Real.sin (dLat / 2) ^ 2 + Real.cos lat1r * Real.cos lat2r * Real.sin (dLon / 2) ^ 2
  let c := 2 * Real.arcsin (Real.sqrt a)
  pyRound (r * c) 2

/-- Python substring containment `needle in hay` on character lists. -/
def containsChars (needle : List Char) : List Char → Bool
  | [] => startsWithChars needle []
  | c :: rest => startsWithChars needle (c :: rest) || containsChars needle rest

/-- The own-home-city test of compute_travel_distance (features.py line 95): a
truthy (non-empty) city hint whose normalization contains the normalized team
name as a substring. -/
def cityTeamHomeHint (city_hint : Option String) (team : String) : Bool :=
  match city_hint with
  | none => false
  | some ch =>
    !ch.toList.isEmpty && containsChars (normalize_team_name team).toList
      (normalize_team_name ch).toList

/-- One side's travel value (features.py lines 90-100): null unless both the
team and the match-city coordinates resolve; 0.0 for a home-city match;
otherwise the haversine distance. -/
noncomputable def sideTravel (team : String) (teams_info : Option (List TeamInfo))
    (city_hint : Option String) (match_coords : Option (ℚ × ℚ)) : Option ℝ :=
  match resolve_team_coords team teams_info, match_coords with
  | some bc, some mc =>
    if cityTeamHomeHint city_hint team then some 0
    else some (haversine_distance_km (bc.1 : ℝ) (bc.2 : ℝ) (mc.1 : ℝ) (mc.2 : ℝ))
  | _, _ => none

/-- Python rsplit("-", 1) for a string containing a dash: the part before the
last dash and the part after it. -/
def rsplitDash (cf : String) : String × String :=
  let tail := cf.toList.reverse.takeWhile (fun c => !(c == '-'))
  (String.mk (cf.toList.take (cf.toList.length - tail.length - 1)),
   String.mk tail.reverse)

/-- The city/state hint extraction of compute_travel_distance (features.py
lines 79-87): split a trailing "-XX" state code, else consult the caller's
city-to-state map when it is present and non-empty. -/
def cityHints (cf : String) (csm : Option (List (String × String))) :
    Option String × Option String :=
  if cf.toList.contains '-' then
    let p := rsplitDash cf
    (some (pyStrip p.1), some (pyStrip p.2))
  else
    match csm with
    | some entries =>
      if entries.isEmpty then (none, none)
      else
        match lookupStr entries cf with
        | some st => (none, some st)
        | none => (none, none)
    | none => (none, none)

/-- compute_travel_distance (features.py lines 62-102). -/
noncomputable def compute_travel_distance (l : List MatchRow)
    (teams_info : Option (List TeamInfo)) (csm : Option (List (String × String))) :
    List (MatchRow × Option ℝ × Option ℝ) :=
  l.map (fun m =>
    let h := cityHints m.cidade_jogo csm
    let mc := resolve_city_coords h.2
    (m, sideTravel m.time_casa teams_info h.1 mc,
        sideTravel m.time_fora teams_info h.1 mc))

/-- An override table for the C4 witness. -/
def cexOverride : List TeamInfo := [⟨"Palmeiras", 1, 2⟩]

/-- A match of two unknown teams, the home one playing in its own city. -/
def cexF : MatchRow := ⟨7, 0, "Xyz", "Zzz", none, none, none, none, "Xyz-SC", none⟩

/-- A row of the standings-snapshot table (StandingsRow of the spec). -/
structure Standing where
  rodada : Int
  time : String
  posicao : Int
  pontos : ℚ
  deriving DecidableEq

/-- The configuration of compute_importance_score. -/
structure ImportanceParams where
  high_round_threshold : Int
  g4_cutoff : Int
  z4_cutoff : Int
  deriving DecidableEq

/-- The digits of a free-text round token. -/
def extractDigits (s : String) : List Char := s.toList.filter Char.isDigit

/-- The integer value of a digit list, as int("".join(digits)). -/
def digitsVal (cs : List Char) : Int :=
  cs.foldl (fun acc c => acc * 10 + ((c.toNat : Int) - 48)) 0

/-- The round parser of team_score (features.py lines 296-301): an integer
round passes through; a text round keeps its digits, yielding null when there
are none (the source then selects an empty table and returns null). -/
def parseRodada : Int ⊕ String → Option Int
  | Sum.inl n => some n
  | Sum.inr s =>
    let ds := extractDigits s
    if ds.isEmpty then none else some (digitsVal ds)

/-- round(tension * stage_factor, 3) with both gaps clamped at zero
(features.py lines 313-317). -/
def importanceValue (sf gapG4 gapZ4 : ℚ) : ℚ :=
  pyRound ((1 / (1 + max gapG4 0 + max gapZ4 0)) * sf) 3

/-- team_score (features.py lines 296-317). -/
def team_score (st : List Standing) (params : ImportanceParams) (team : String)
    (rodada : Option (Int ⊕ String)) : Option ℚ :=
  match rodada with
  | none => none
  | some rv =>
    match parseRodada rv with
    | none => none
    | some r =>
      let table := st.filter (fun row => row.rodada == r)
      if table.isEmpty then none
      else
        match table.find? (fun row => pyLower row.time == pyLower team) with
        | none => none
        | some teamRow =>
          match table.find? (fun row => row.posicao == params.g4_cutoff),
                table.find? (fun row => row.posicao == params.z4_cutoff) with
          | some g4row, some z4row =>
            some (importanceValue (if r ≥ params.high_round_threshold then 1 else 1 / 2)
              (g4row.pontos - teamRow.pontos) (teamRow.pontos - z4row.pontos))
          | _, _ => none

/-- compute_importance_score (features.py lines 278-325). -/
def compute_importance_score (l : List MatchRow) (standings : Option (List Standing))
    (params : ImportanceParams) : List (MatchRow × Option ℚ × Option ℚ) :=
  match standings with
  | none => l.map (fun m => (m, none, none))
  | some st =>
    if st.isEmpty then l.map (fun m => (m, none, none))
    else l.map (fun m =>
      (m, team_score st params m.time_casa m.rodada,
          team_score st params m.time_fora m.rodada))

/-- A one-round standings table where team x sits at both cutoff ranks. -/
def cexStandings : List Standing :=
  [⟨30, "x", 4, 50⟩, ⟨30, "y", 17, 50⟩]

/-- A single player-stat row used by the C6 witness. -/
def cexStat : PlayerStat := ⟨1, 10, "A", 2, 1⟩

/-- The four rolling metric names of compute_rolling_stats. -/
def rollMetrics : List String := ["goals_for", "goals_against", "xg_for", "xg_against"]

/-- The names of the eight columns compute_rolling_stats appends: the
long-table transform columns named f"{metric}_roll" carried through
add_suffix(f"_last{window}_{side}") (features.py lines 174-192). -/
def rollColumnNames (window : Nat) : List String :=
  (rollMetrics.map (fun m => m ++ "_roll" ++ ("_last" ++ toString window ++ "_home"))) ++
  (rollMetrics.map (fun m => m ++ "_roll" ++ ("_last" ++ toString window ++ "_away")))

section StableSortTheorems

variable {α : Type} (lt : α → α → Bool)

theorem insertOrd_perm (m : α) (l : List α) : (insertOrd lt m l).Perm (m :: l) := by
  induction l with
  | nil => simp [insertOrd]
  | cons x xs ih =>
    by_cases h : lt x m
    · simpa [insertOrd, h] using (ih.cons x).trans (List.Perm.swap m x xs)
    · simp [insertOrd, h]

theorem stableSort_perm (l : List α) : (stableSort lt l).Perm l := by
  induction l with
  | nil => simp [stableSort]
  | cons m rest ih =>
    exact (insertOrd_perm lt m (stableSort lt rest)).trans (ih.cons m)

theorem insertOrd_pairwise
    (hasym : ∀ a b, lt a b = true → lt b a = false)
    (htr : ∀ a b c, lt b a = false → lt c b = false → lt c a = false)
    (m : α) (l : List α) (hl : l.Pairwise (fun a b => lt b a = false)) :
    (insertOrd lt m l).Pairwise (fun a b => lt b a = false) := by
  induction l with
  | nil => simp [insertOrd]
  | cons x xs ih =>
    rcases List.pairwise_cons.mp hl with ⟨hx, hxs⟩
    by_cases h : lt x m
    · have hmem : ∀ y ∈ insertOrd lt m xs, lt y x = false := by
        intro y hy
        have hmy : y ∈ m :: xs := (insertOrd_perm lt m xs).mem_iff.mp hy
        rcases List.mem_cons.mp hmy with rfl | hy'
        · exact hasym _ _ h
        · exact hx y hy'
      simpa [insertOrd, h] using List.pairwise_cons.mpr ⟨hmem, ih hxs⟩
    · have hmx : lt x m = false := by simpa using h
      have hmem : ∀ y ∈ x :: xs, lt y m = false := by
        intro y hy
        rcases List.mem_cons.mp hy with rfl | hy'
        · exact hmx
        · exact htr m x y hmx (hx y hy')
      simpa [insertOrd, h] using List.pairwise_cons.mpr ⟨hmem, hl⟩

theorem stableSort_pairwise
    (hasym : ∀ a b, lt a b = true → lt b a = false)
    (htr : ∀ a b c, lt b a = false → lt c b = false → lt c a = false)
    (l : List α) : (stableSort lt l).Pairwise (fun a b => lt b a = false) := by
  induction l with
  | nil => simp [stableSort]
  | cons m rest ih => exact insertOrd_pairwise lt hasym htr m _ ih

theorem insertOrd_eq_cons (m : α) (l : List α)
    (h : ∀ y ∈ l, lt y m = false) : insertOrd lt m l = m :: l := by
  cases l with
  | nil => rfl
  | cons x xs => simp [insertOrd, h x (by simp)]

/-- Filtering commutes with insertion into a sorted list. -/
theorem filter_insertOrd (P : α → Bool)
    (htr : ∀ a b c, lt b a = false → lt c b = false → lt c a = false)
    (m : α) (l : List α) (hl : l.Pairwise (fun a b => lt b a = false)) :
    (insertOrd lt m l).filter P =
      if P m then insertOrd lt m (l.filter P) else l.filter P := by
  induction l with
  | nil => by_cases h : P m <;> simp [insertOrd, List.filter, h]
  | cons x xs ih =>
    rcases List.pairwise_cons.mp hl with ⟨hx, hxs⟩
    by_cases h : lt x m
    · by_cases hpx : P x
      · by_cases hpm : P m
        · simp [insertOrd, h, List.filter_cons, hpx, hpm, ih hxs]
        · simp [insertOrd, h, List.filter_cons, hpx, hpm, ih hxs]
      · by_cases hpm : P m
        · simp [insertOrd, h, List.filter_cons, hpx, hpm, ih hxs]
        · simp [insertOrd, h, List.filter_cons, hpx, hpm, ih hxs]
    · have hmx : lt x m = false := by simpa using h
      have hfil : ∀ y ∈ (x :: xs).filter P, lt y m = false := by
        intro y hy
        have hy' : y ∈ x :: xs := List.mem_of_mem_filter hy
        rcases List.mem_cons.mp hy' with rfl | hy2
        · exact hmx
        · exact htr m x y hmx (hx y hy2)
      by_cases hpm : P m
      · rw [insertOrd_eq_cons lt m ((x :: xs).filter P) hfil]
        simp [insertOrd, h, List.filter_cons, hpm]
      · simp [insertOrd, h, List.filter_cons, hpm]

/-- Filtering commutes with stable sorting. -/
theorem stableSort_filter (P : α → Bool)
    (hasym : ∀ a b, lt a b = true → lt b a = false)
    (htr : ∀ a b c, lt b a = false → lt c b = false → lt c a = false)
    (l : List α) :
    (stableSort lt l).filter P = stableSort lt (l.filter P) := by
  induction l with
  | nil => simp [stableSort]
  | cons m rest ih =>
    have hsorted := stableSort_pairwise lt hasym htr rest
    by_cases hpm : P m
    · simp only [stableSort, List.filter_cons, hpm]
      rw [filter_insertOrd lt P htr m _ hsorted, if_pos hpm, ih]
    · simp only [stableSort, List.filter_cons]
      rw [filter_insertOrd lt P htr m _ hsorted, if_neg hpm, ih]
      simp [hpm]

/-- In a sorted list, the elements satisfying a downward-closed predicate form
a prefix. -/
theorem pairwise_filter_append (P : α → Bool) (L : List α)
    (hL : L.Pairwise (fun a b => lt b a = false))
    (hdc : ∀ a b, a ∈ L → b ∈ L → lt b a = false → P b = true → P a = true) :
    L = L.filter P ++ L.filter (fun x => ! P x) := by
  induction L with
  | nil => simp
  | cons x xs ih =>
    rcases List.pairwise_cons.mp hL with ⟨hx, hxs⟩
    by_cases hpx : P x
    · have := ih hxs (fun a b ha hb hab hpb => hdc a b (by simp [ha]) (by simp [hb]) hab hpb)
      simpa [List.filter_cons, hpx] using this
    · have hnone : ∀ y ∈ xs, P y = false := by
        intro y hy
        by_contra hcon
        have hPy : P y = true := by
          cases hPy : P y
          · exact absurd hPy hcon
          · rfl
        have : P x = true := hdc x y (by simp) (by simp [hy]) (hx y hy) hPy
        simp [this] at hpx
      have h1 : xs.filter P = [] := List.filter_eq_nil_iff.mpr (by
        intro y hy
        simp [hnone y hy])
      have h2 : xs.filter (fun x => ! P x) = xs := List.filter_eq_self.mpr (by
        intro y hy
        simp [hnone y hy])
      simp [List.filter_cons, hpx, h1, h2]

end StableSortTheorems

theorem matchLt_asym (a b : MatchRow) (h : matchLt a b = true) : matchLt b a = false := by
  simp only [matchLt, decide_eq_true_eq] at h
  simp only [matchLt, decide_eq_false_iff_not]
  omega

theorem matchLt_trans (a b c : MatchRow) (h1 : matchLt b a = false)
    (h2 : matchLt c b = false) : matchLt c a = false := by
  simp only [matchLt, decide_eq_false_iff_not] at h1 h2 ⊢
  omega

theorem restChain_aux (t : String) (L : List MatchRow) (last : String → Option Int)
    (hL : L.Pairwise (fun a b => matchLt b a = false))
    (hlast : ∀ d, last t = some d → ∀ m ∈ L, d ≤ m.data) :
    restChainOk t (last t) ((restDaysAux last L).filter (fun r => matchInvolves t r.1)) = true := by
  induction L generalizing last with
  | nil => simp [restDaysAux, restChainOk]
  | cons m rest ih =>
    rcases List.pairwise_cons.mp hL with ⟨hm, hrest⟩
    by_cases hinv : matchInvolves t m = true
    · have hupd : lastUpd m last t = some m.data := by
        simp only [matchInvolves, Bool.or_eq_true, decide_eq_true_eq] at hinv
        simp [lastUpd, hinv]
      have htail := ih (lastUpd m last) hrest (by
        intro d hd m' hm'
        rw [hupd] at hd
        injection hd with hd
        subst hd
        have := hm m' hm'
        simp only [matchLt, decide_eq_false_iff_not] at this
        omega)
      rw [hupd] at htail
      have hside : tSideVal t (m, (last m.time_casa).map (fun d => m.data - d),
          (last m.time_fora).map (fun d => m.data - d)) = (last t).map (fun d => m.data - d) := by
        simp only [matchInvolves, Bool.or_eq_true, decide_eq_true_eq] at hinv
        rcases hinv with h1 | h2
        · simp [tSideVal, h1.symm]
        · by_cases hc : m.time_casa = t
          · simp [tSideVal, hc]
          · simp [tSideVal, hc, h2.symm]
      have hprev : ∀ d, last t = some d → d ≤ m.data := by
        intro d hd
        exact hlast d hd m (by simp)
      simp only [restDaysAux, List.filter_cons, hinv, restChainOk, hside]
      cases hlt : last t with
      | none => simpa [restChainOk, hlt] using htail
      | some d =>
          have hle : d ≤ m.data := hprev d hlt
          simp only [Option.map_some]
          rw [Bool.and_eq_true, Bool.and_eq_true]
          exact ⟨⟨by simp, by simpa using hle⟩, htail⟩
    · have hupd : lastUpd m last t = last t := by
        simp only [matchInvolves, Bool.or_eq_true, decide_eq_true_eq, not_or] at hinv
        push_neg at hinv
        simp [lastUpd, hinv.1, hinv.2]
      have htail := ih (lastUpd m last) hrest (by
        intro d hd m' hm'
        rw [hupd] at hd
        exact hlast d hd m' (by simp [hm']))
      rw [hupd] at htail
      simpa [restDaysAux, List.filter_cons, hinv] using htail

/-- Claim C3: in compute_rest_days, for every team, along that team's rows (in
the order the stage emits them) exactly the first row carries a null rest-days
value on the team's side; every later row carries the non-negative day
difference from the team's immediately preceding match, both teams of a match
having been updated from it before the next match is processed. -/
theorem C3_rest_days_per_team (l : List MatchRow) (t : String) :
    restChainOk t none ((compute_rest_days l).filter (fun r => matchInvolves t r.1)) = true := by
  have hsorted := stableSort_pairwise matchLt matchLt_asym matchLt_trans l
  have := restChain_aux t (stableSort matchLt l) (fun _ => none) hsorted (by
    intro d hd
    exact absurd hd (by simp))
  simpa [compute_rest_days] using this

theorem restDaysAux_append (A B : List MatchRow) (last : String → Option Int) :
    restDaysAux last (A ++ B) = restDaysAux last A ++ restDaysAux (lastAfter A last) B := by
  induction A generalizing last with
  | nil => simp [restDaysAux, lastAfter]
  | cons m rest ih => simp [restDaysAux, lastAfter, ih]

theorem restDaysAux_map_fst (L : List MatchRow) (last : String → Option Int) :
    (restDaysAux last L).map Prod.fst = L := by
  induction L generalizing last with
  | nil => rfl
  | cons m rest ih => simp [restDaysAux, ih]

theorem sorted_le_front (d : Int) (l : List MatchRow) :
    stableSort matchLt l =
      stableSort matchLt (l.filter (fun m => decide (m.data ≤ d))) ++
      (stableSort matchLt l).filter (fun m => ! decide (m.data ≤ d)) := by
  have hsorted := stableSort_pairwise matchLt matchLt_asym matchLt_trans l
  have hsplit := pairwise_filter_append matchLt (fun m => decide (m.data ≤ d))
    (stableSort matchLt l) hsorted (by
      intro a b _ _ hab hpb
      simp only [matchLt, decide_eq_false_iff_not] at hab
      simp only [decide_eq_true_eq] at hpb ⊢
      omega)
  rw [stableSort_filter matchLt _ matchLt_asym matchLt_trans l] at hsplit
  exact hsplit

theorem restRowFor_localized (l : List MatchRow) (M : MatchRow) (hM : M ∈ l) :
    restRowFor l M.id_partida =
      (restDaysAux (fun _ => none)
        (stableSort matchLt (l.filter (fun m => decide (m.data ≤ M.data))))).find?
        (fun r => r.1.id_partida == M.id_partida) := by
  unfold restRowFor compute_rest_days
  rw [sorted_le_front M.data l, restDaysAux_append, List.find?_append]
  have hMf : M ∈ l.filter (fun m => decide (m.data ≤ M.data)) :=
    List.mem_filter.mpr ⟨hM, by simp⟩
  have hMs : M ∈ stableSort matchLt (l.filter (fun m => decide (m.data ≤ M.data))) :=
    (stableSort_perm matchLt _).mem_iff.mpr hMf
  have hrow : ∃ r ∈ restDaysAux (fun _ => none)
      (stableSort matchLt (l.filter (fun m => decide (m.data ≤ M.data)))), r.1 = M := by
    have := restDaysAux_map_fst
      (stableSort matchLt (l.filter (fun m => decide (m.data ≤ M.data)))) (fun _ => none)
    rw [← this] at hMs
    rcases List.mem_map.mp hMs with ⟨r, hr, hr1⟩
    exact ⟨r, hr, hr1⟩
  rcases hrow with ⟨r, hr, hr1⟩
  have hsome : ((restDaysAux (fun _ => none)
      (stableSort matchLt (l.filter (fun m => decide (m.data ≤ M.data))))).find?
      (fun r => r.1.id_partida == M.id_partida)).isSome := by
    rw [List.find?_isSome]
    exact ⟨r, hr, by simp [hr1]⟩
  cases hfind : (restDaysAux (fun _ => none)
      (stableSort matchLt (l.filter (fun m => decide (m.data ≤ M.data))))).find?
      (fun r => r.1.id_partida == M.id_partida) with
  | none => rw [hfind] at hsome; simp at hsome
  | some x => simp [Option.or]

theorem char_toNat_inj {a b : Char} (h : a.toNat = b.toNat) : a = b := by
  apply Char.ext
  apply UInt32.ext
  simpa [Char.toNat] using h

theorem charListLt_asym (a b : List Char) (h : charListLt a b = true) :
    charListLt b a = false := by
  induction a generalizing b with
  | nil =>
    cases b with
    | nil => simp [charListLt] at h
    | cons y ys => simp [charListLt]
  | cons x xs ih =>
    cases b with
    | nil => simp [charListLt] at h
    | cons y ys =>
      simp only [charListLt, Bool.or_eq_true, Bool.and_eq_true, decide_eq_true_eq,
        beq_iff_eq] at h
      simp only [charListLt, Bool.or_eq_false_iff, Bool.and_eq_false_iff,
        decide_eq_false_iff_not]
      rcases h with h1 | ⟨h2, h3⟩
      · refine ⟨by omega, Or.inl ?_⟩
        rw [beq_eq_false_iff_ne]
        omega
      · exact ⟨by omega, Or.inr (ih ys h3)⟩

theorem charListLt_irrefl (a : List Char) : charListLt a a = false := by
  induction a with
  | nil => rfl
  | cons x xs ih => simp [charListLt, ih]

theorem charListLt_trans_neg (a b c : List Char) (h1 : charListLt b a = false)
    (h2 : charListLt c b = false) : charListLt c a = false := by
  induction a generalizing b c with
  | nil =>
    cases c with
    | nil => rfl
    | cons z zs => rfl
  | cons x xs ih =>
    cases c with
    | nil =>
      cases b with
      | nil => simp [charListLt] at h1
      | cons y ys => simp [charListLt] at h2
    | cons z zs =>
      cases b with
      | nil => simp [charListLt] at h1
      | cons y ys =>
        simp only [charListLt, Bool.or_eq_false_iff, Bool.and_eq_false_iff,
          decide_eq_false_iff_not, beq_eq_false_iff_ne] at h1 h2 ⊢
        refine ⟨by omega, ?_⟩
        by_cases hzx : z.toNat = x.toNat
        · right
          have hyx : y.toNat = x.toNat := by omega
          have hzy : z.toNat = y.toNat := by omega
          rcases h1.2 with h1e | h1r
          · exact absurd hyx h1e
          · rcases h2.2 with h2e | h2r
            · exact absurd hzy h2e
            · exact ih ys zs h1r h2r
        · exact Or.inl hzx

theorem charListLt_eq_of_not_lt (a b : List Char) (h1 : charListLt a b = false)
    (h2 : charListLt b a = false) : a = b := by
  induction a generalizing b with
  | nil =>
    cases b with
    | nil => rfl
    | cons y ys => simp [charListLt] at h1
  | cons x xs ih =>
    cases b with
    | nil => simp [charListLt] at h2
    | cons y ys =>
      simp only [charListLt, Bool.or_eq_false_iff, Bool.and_eq_false_iff,
        decide_eq_false_iff_not, beq_eq_false_iff_ne] at h1 h2
      have hxy : x.toNat = y.toNat := by omega
      rcases h1.2 with h1e | h1r
      · exact absurd hxy h1e
      · rcases h2.2 with h2e | h2r
        · exact absurd hxy.symm h2e
        · rw [char_toNat_inj hxy, ih ys h1r h2r]

theorem strLt_eq_of_not_lt (s t : String) (h1 : strLt s t = false)
    (h2 : strLt t s = false) : s = t := by
  apply String.ext
  exact charListLt_eq_of_not_lt s.data t.data h1 h2

theorem obsLt_asym (a b : Obs) (h : obsLt a b = true) : obsLt b a = false := by
  simp only [obsLt, Bool.or_eq_true, Bool.and_eq_true, decide_eq_true_eq,
    beq_iff_eq] at h
  simp only [obsLt, Bool.or_eq_false_iff, Bool.and_eq_false_iff,
    decide_eq_false_iff_not, beq_eq_false_iff_ne]
  rcases h with h | ⟨he, hd⟩
  · constructor
    · exact charListLt_asym _ _ h
    · left
      intro hba
      rw [hba] at h
      rw [show strLt a.team a.team = charListLt a.team.toList a.team.toList from rfl] at h
      rw [charListLt_irrefl] at h
      exact absurd h (by simp)
  · constructor
    · rw [he]
      exact charListLt_irrefl _
    · right
      omega

theorem strLt_trans_neg (s t u : String) (h1 : strLt t s = false)
    (h2 : strLt u t = false) : strLt u s = false :=
  charListLt_trans_neg s.toList t.toList u.toList h1 h2

theorem obsLt_trans (a b c : Obs) (h1 : obsLt b a = false) (h2 : obsLt c b = false) :
    obsLt c a = false := by
  simp only [obsLt, Bool.or_eq_false_iff, Bool.and_eq_false_iff,
    decide_eq_false_iff_not, beq_eq_false_iff_ne] at h1 h2 ⊢
  refine ⟨strLt_trans_neg _ _ _ h1.1 h2.1, ?_⟩
  by_cases hca : c.team = a.team
  · right
    have hab : strLt a.team b.team = false := by
      rw [← hca]
      exact h2.1
    have hba : b.team = a.team := strLt_eq_of_not_lt b.team a.team h1.1 hab
    have hd1 : ¬(b.data < a.data) := by
      rcases h1.2 with he | hd
      · exact absurd hba he
      · exact hd
    have hd2 : ¬(c.data < b.data) := by
      rcases h2.2 with he | hd
      · exact absurd (by rw [hca, ← hba]) he
      · exact hd
    omega
  · exact Or.inl hca

theorem obsLt_false_dates {x y : Obs} (h : obsLt y x = false) (hteam : y.team = x.team) :
    x.data ≤ y.data := by
  simp only [obsLt, Bool.or_eq_false_iff, Bool.and_eq_false_iff,
    decide_eq_false_iff_not, beq_eq_false_iff_ne] at h
  rcases h.2 with he | hd
  · exact absurd hteam he
  · omega

theorem mem_longRows (l : List MatchRow) (o : Obs) :
    o ∈ longRows l ↔ ∃ m ∈ l, o = homeObs m ∨ o = awayObs m := by
  induction l with
  | nil => simp [longRows]
  | cons m rest ih =>
    simp only [longRows, List.mem_cons, ih]
    constructor
    · rintro (rfl | rfl | ⟨m', hm', hc⟩)
      · exact ⟨m, Or.inl rfl, Or.inl rfl⟩
      · exact ⟨m, Or.inl rfl, Or.inr rfl⟩
      · exact ⟨m', Or.inr hm', hc⟩
    · rintro ⟨m', hm' | hm', hc⟩
      · subst hm'
        rcases hc with rfl | rfl
        · exact Or.inl rfl
        · exact Or.inr (Or.inl rfl)
      · exact Or.inr (Or.inr ⟨m', hm', hc⟩)

theorem longRows_filter_key (l : List MatchRow) (M : MatchRow) (sd : Bool)
    (huniq : l.Pairwise (fun a b => a.id_partida ≠ b.id_partida)) (hM : M ∈ l) :
    (longRows l).filter (keyP M.id_partida sd) = [sideObs sd M] := by
  induction l with
  | nil => simp at hM
  | cons m rest ih =>
    rcases List.pairwise_cons.mp huniq with ⟨hm, hrest⟩
    rcases List.mem_cons.mp hM with rfl | hMr
    · have hnone : (longRows rest).filter (keyP M.id_partida sd) = [] := by
        rw [List.filter_eq_nil_iff]
        intro o ho
        rcases (mem_longRows rest o).mp ho with ⟨m', hm', hcase⟩
        have hid : o.id_partida = m'.id_partida := by
          rcases hcase with rfl | rfl <;> rfl
        have hfalse : (o.id_partida == M.id_partida) = false := by
          rw [hid]
          exact beq_eq_false_iff_ne.mpr (fun h => (hm m' hm') h.symm)
        simp [keyP, hfalse]
      cases sd
      · simp [longRows, List.filter_cons, keyP, homeObs, awayObs, sideObs, hnone]
      · simp [longRows, List.filter_cons, keyP, homeObs, awayObs, sideObs, hnone]
    · have hneq : (m.id_partida == M.id_partida) = false :=
        beq_eq_false_iff_ne.mpr (hm M hMr)
      have := ih hrest hMr
      simp [longRows, List.filter_cons, keyP, homeObs, awayObs, hneq, this]

theorem sorted_filter_key (l : List MatchRow) (M : MatchRow) (sd : Bool)
    (huniq : l.Pairwise (fun a b => a.id_partida ≠ b.id_partida)) (hM : M ∈ l) :
    (stableSort obsLt (longRows l)).filter (keyP M.id_partida sd) = [sideObs sd M] := by
  have h1 := longRows_filter_key l M sd huniq hM
  have hperm := List.Perm.filter (keyP M.id_partida sd) (stableSort_perm obsLt (longRows l))
  rw [h1] at hperm
  exact List.perm_singleton.mp hperm

theorem filter_eq_singleton_split {α : Type} (p : α → Bool) (l : List α) (o : α)
    (h : l.filter p = [o]) :
    ∃ u v, l = u ++ o :: v ∧ (∀ x ∈ u, p x = false) ∧ (∀ x ∈ v, p x = false) := by
  induction l with
  | nil => simp at h
  | cons x xs ih =>
    by_cases hpx : p x = true
    · rw [List.filter_cons, if_pos hpx] at h
      injection h with h1 h2
      subst h1
      refine ⟨[], xs, rfl, by simp, ?_⟩
      intro y hy
      rw [List.filter_eq_nil_iff] at h2
      simpa using h2 y hy
    · rw [List.filter_cons, if_neg hpx] at h
      rcases ih h with ⟨u, v, hsplit, hu, hv⟩
      refine ⟨x :: u, v, by rw [hsplit]; rfl, ?_, hv⟩
      intro y hy
      rcases List.mem_cons.mp hy with rfl | hy2
      · simpa using hpx
      · exact hu y hy2

theorem group_filter_key (l : List MatchRow) (M : MatchRow) (sd : Bool)
    (huniq : l.Pairwise (fun a b => a.id_partida ≠ b.id_partida)) (hM : M ∈ l) :
    ((stableSort obsLt (longRows l)).filter
        (fun o => o.team = (sideObs sd M).team)).filter (keyP M.id_partida sd) =
      [sideObs sd M] := by
  rw [List.filter_filter]
  have hswap : (stableSort obsLt (longRows l)).filter
      (fun a => keyP M.id_partida sd a && decide (a.team = (sideObs sd M).team)) =
      ((stableSort obsLt (longRows l)).filter (keyP M.id_partida sd)).filter
        (fun a => decide (a.team = (sideObs sd M).team)) := by
    rw [List.filter_filter]
    exact List.filter_congr (by
      intro x hx
      rw [Bool.and_comm])
  rw [hswap, sorted_filter_key l M sd huniq hM]
  simp [List.filter_cons]

theorem groupRolledAux_find_none (w : Nat) (g : List Obs) (p : Obs → Bool) :
    ∀ (rest : List Obs) (i : Nat), (∀ x ∈ rest, p x = false) →
      (groupRolledAux w g i rest).find? (fun q => p q.1) = none := by
  intro rest
  induction rest with
  | nil => intro i _; simp [groupRolledAux]
  | cons o os ih =>
    intro i h
    simp only [groupRolledAux]
    rw [List.find?_cons_of_neg _ (by simpa using h o (by simp))]
    exact ih (i + 1) (fun x hx => h x (by simp [hx]))

theorem groupRolledAux_find_some (w : Nat) (g : List Obs) (p : Obs → Bool) (o : Obs)
    (v : List Obs) (ho : p o = true) :
    ∀ (u : List Obs) (i : Nat), (∀ x ∈ u, p x = false) →
      (groupRolledAux w g i (u ++ o :: v)).find? (fun q => p q.1) =
        some (o, rollColsAt w g (i + u.length)) := by
  intro u
  induction u with
  | nil =>
    intro i _
    simp only [List.nil_append, groupRolledAux]
    rw [List.find?_cons_of_pos _ (by simpa using ho)]
    simp
  | cons x xs ih =>
    intro i h
    have hstep : groupRolledAux w g i ((x :: xs) ++ o :: v) =
        (x, rollColsAt w g i) :: groupRolledAux w g (i + 1) (xs ++ o :: v) := rfl
    rw [hstep, List.find?_cons_of_neg _ (by simpa using h x (by simp)),
      ih (i + 1) (fun y hy => h y (by simp [hy]))]
    have harith : i + 1 + xs.length = i + (x :: xs).length := by
      simp only [List.length_cons]
      omega
    rw [harith]

theorem flatMap_find_none (w : Nat) (S : List Obs) (p : Obs → Bool) (t0 : String)
    (hp : ∀ x ∈ S, p x = true → x.team = t0) :
    ∀ ts : List String, t0 ∉ ts →
      ((ts.flatMap (fun t => groupRolled w (S.filter (fun x => x.team = t)))).find?
        (fun q => p q.1)) = none := by
  intro ts
  induction ts with
  | nil => intro _; simp
  | cons t ts' ih =>
    intro ht
    rw [List.flatMap_cons, List.find?_append]
    have h1 : (groupRolled w (S.filter (fun x => x.team = t))).find? (fun q => p q.1) = none := by
      apply groupRolledAux_find_none
      intro x hx
      have hx' := List.mem_filter.mp hx
      cases hpx : p x
      · rfl
      · exfalso
        have h2 : x.team = t := by simpa using hx'.2
        have h3 : t0 = t := by rw [← hp x hx'.1 hpx, h2]
        exact ht (h3 ▸ List.mem_cons_self t ts')
    rw [h1, Option.none_or]
    exact ih (fun hmem => ht (by simp [hmem]))

theorem flatMap_find_key (w : Nat) (S : List Obs) (p : Obs → Bool) (o : Obs)
    (hp : ∀ x ∈ S, p x = true → x.team = o.team) :
    ∀ ts : List String, ts.Nodup → o.team ∈ ts →
      ((ts.flatMap (fun t => groupRolled w (S.filter (fun x => x.team = t)))).find?
        (fun q => p q.1)) =
      (groupRolled w (S.filter (fun x => x.team = o.team))).find? (fun q => p q.1) := by
  intro ts
  induction ts with
  | nil => intro _ h; simp at h
  | cons t ts' ih =>
    intro hnd hmem
    rw [List.flatMap_cons, List.find?_append]
    rcases List.pairwise_cons.mp hnd with ⟨hhd, htl⟩
    by_cases hteq : o.team = t
    · subst hteq
      have htail := flatMap_find_none w S p o.team hp ts' (by
        intro hmem'
        exact (hhd o.team hmem') rfl)
      rw [htail, Option.or_none]
    · have hhead : (groupRolled w (S.filter (fun x => x.team = t))).find? (fun q => p q.1) = none := by
        apply groupRolledAux_find_none
        intro x hx
        have hx' := List.mem_filter.mp hx
        cases hpx : p x
        · rfl
        · exfalso
          have h2 : x.team = t := by simpa using hx'.2
          exact hteq (by rw [← hp x hx'.1 hpx, h2])
      rw [hhead, Option.none_or]
      exact ih htl (by
        rcases List.mem_cons.mp hmem with h | h
        · exact absurd h hteq
        · exact h)

theorem group_filter_of_singleton (S : List Obs) (p : Obs → Bool) (o : Obs)
    (hfil : S.filter p = [o]) :
    (S.filter (fun x => x.team = o.team)).filter p = [o] := by
  rw [List.filter_filter]
  have hswap : S.filter (fun a => p a && decide (a.team = o.team)) =
      (S.filter p).filter (fun a => decide (a.team = o.team)) := by
    rw [List.filter_filter]
    exact List.filter_congr (fun x _ => Bool.and_comm _ _)
  rw [hswap, hfil]
  simp [List.filter_cons]

theorem longRows_filter_le (l : List MatchRow) (d : Int) :
    (longRows l).filter (fun o => decide (o.data ≤ d)) =
      longRows (l.filter (fun m => decide (m.data ≤ d))) := by
  induction l with
  | nil => rfl
  | cons m rest ih =>
    by_cases h : m.data ≤ d
    · simp [longRows, List.filter_cons, homeObs, awayObs, h, ih]
    · simp [longRows, List.filter_cons, homeObs, awayObs, h, ih]

theorem rollAt_eq_of_take_eq (w : Nat) (s1 s2 : List (Option ℚ)) (i : Nat)
    (h : s1.take i = s2.take i) : rollAt w s1 i = rollAt w s2 i := by
  simp [rollAt, windowVals, h]

theorem rollColsAt_eq_of_take_eq (w : Nat) (g1 g2 : List Obs) (i : Nat)
    (h : g1.take i = g2.take i) : rollColsAt w g1 i = rollColsAt w g2 i := by
  have hm : ∀ f : Obs → Option ℚ, (g1.map f).take i = (g2.map f).take i := by
    intro f
    rw [← List.map_take, ← List.map_take, h]
  simp only [rollColsAt]
  rw [rollAt_eq_of_take_eq w (g1.map (fun o => o.goals_for)) (g2.map (fun o => o.goals_for)) i (hm _),
    rollAt_eq_of_take_eq w (g1.map (fun o => o.goals_against)) (g2.map (fun o => o.goals_against)) i (hm _),
    rollAt_eq_of_take_eq w (g1.map (fun o => o.xg_for)) (g2.map (fun o => o.xg_for)) i (hm _),
    rollAt_eq_of_take_eq w (g1.map (fun o => o.xg_against)) (g2.map (fun o => o.xg_against)) i (hm _)]

theorem groupLE_eq_filter (l : List MatchRow) (t : String) (d : Int) :
    groupLE l t d =
      ((stableSort obsLt (longRows l)).filter (fun o => o.team = t)).filter
        (fun o => decide (o.data ≤ d)) := by
  unfold groupLE
  rw [← longRows_filter_le, ← stableSort_filter obsLt _ obsLt_asym obsLt_trans,
    List.filter_filter, List.filter_filter]
  exact List.filter_congr (fun x _ => Bool.and_comm _ _)

theorem lookupRoll_localized (w : Nat) (l : List MatchRow) (M : MatchRow) (sd : Bool)
    (huniq : l.Pairwise (fun a b => a.id_partida ≠ b.id_partida)) (hM : M ∈ l) :
    lookupRoll (rolledLong w l) M.id_partida sd =
      rollColsAt w (groupLE l (sideObs sd M).team M.data)
        ((groupLE l (sideObs sd M).team M.data).findIdx (keyP M.id_partida sd)) := by
  have hdata : (sideObs sd M).data = M.data := by cases sd <;> rfl
  have hkey : keyP M.id_partida sd (sideObs sd M) = true := by
    cases sd <;> simp [keyP, sideObs, homeObs, awayObs]
  set S := stableSort obsLt (longRows l) with hS
  have hfil : S.filter (keyP M.id_partida sd) = [sideObs sd M] :=
    sorted_filter_key l M sd huniq hM
  have hoS : sideObs sd M ∈ S := by
    have hmem : sideObs sd M ∈ S.filter (keyP M.id_partida sd) := by
      rw [hfil]
      simp
    exact List.mem_of_mem_filter hmem
  have hgroupfil : (S.filter (fun x => x.team = (sideObs sd M).team)).filter
      (keyP M.id_partida sd) = [sideObs sd M] :=
    group_filter_of_singleton S _ _ hfil
  have hp : ∀ x ∈ S, keyP M.id_partida sd x = true → x.team = (sideObs sd M).team := by
    intro x hx hpx
    have hmem : x ∈ S.filter (keyP M.id_partida sd) := List.mem_filter.mpr ⟨hx, hpx⟩
    rw [hfil] at hmem
    simp only [List.mem_singleton] at hmem
    rw [hmem]
  have hmemteam : (sideObs sd M).team ∈ teamsOf S := by
    unfold teamsOf
    rw [List.mem_dedup]
    exact List.mem_map.mpr ⟨sideObs sd M, hoS, rfl⟩
  have hflat := flatMap_find_key w S (keyP M.id_partida sd) (sideObs sd M) hp
    (teamsOf S) (List.nodup_dedup _) hmemteam
  rcases filter_eq_singleton_split _ _ _ hgroupfil with ⟨u, v, hguv, hu, hv⟩
  have hgroup_eq : groupRolled w (S.filter (fun x => x.team = (sideObs sd M).team)) =
      groupRolledAux w (S.filter (fun x => x.team = (sideObs sd M).team)) 0
        (u ++ (sideObs sd M) :: v) := by
    unfold groupRolled
    rw [← hguv]
  have hgfind := groupRolledAux_find_some w
    (S.filter (fun x => x.team = (sideObs sd M).team))
    (keyP M.id_partida sd) (sideObs sd M) v hkey u 0 hu
  have hfind : (rolledLong w l).find? (fun q => keyP M.id_partida sd q.1) =
      some (sideObs sd M, rollColsAt w
        (S.filter (fun x => x.team = (sideObs sd M).team)) (0 + u.length)) := by
    have hrl : rolledLong w l =
        (teamsOf S).flatMap (fun t => groupRolled w (S.filter (fun x => x.team = t))) := by
      simp only [rolledLong, hS]
    rw [hrl, hflat, hgroup_eq, hgfind]
  have hlook : lookupRoll (rolledLong w l) M.id_partida sd =
      rollColsAt w (S.filter (fun x => x.team = (sideObs sd M).team)) u.length := by
    unfold lookupRoll
    rw [show (fun p : Obs × RollCols => p.1.id_partida == M.id_partida && p.1.side == sd) =
      (fun q : Obs × RollCols => keyP M.id_partida sd q.1) from rfl, hfind]
    simp
  have hgsorted : (S.filter
      (fun x => x.team = (sideObs sd M).team)).Pairwise (fun a b => obsLt b a = false) :=
    List.Pairwise.sublist (List.filter_sublist S)
      (stableSort_pairwise obsLt obsLt_asym obsLt_trans _)
  have hupre : ∀ a ∈ u, a.data ≤ M.data := by
    intro a ha
    have hrel : obsLt (sideObs sd M) a = false := by
      rw [hguv] at hgsorted
      exact (List.pairwise_append.mp hgsorted).2.2 a ha (sideObs sd M) (by simp)
    have hateam : a.team = (sideObs sd M).team := by
      have hag : a ∈ S.filter (fun x => x.team = (sideObs sd M).team) := by
        rw [hguv]
        simp [ha]
      simpa using (List.mem_filter.mp hag).2
    have hle := obsLt_false_dates hrel hateam.symm
    rw [hdata] at hle
    exact hle
  have hgle : groupLE l (sideObs sd M).team M.data =
      u ++ (sideObs sd M) :: v.filter (fun x => decide (x.data ≤ M.data)) := by
    rw [groupLE_eq_filter, ← hS, hguv, List.filter_append, List.filter_cons]
    rw [List.filter_eq_self.mpr (by
      intro a ha
      simpa using hupre a ha)]
    simp [hdata]
  have hidx : (groupLE l (sideObs sd M).team M.data).findIdx (keyP M.id_partida sd) =
      u.length := by
    rw [hgle, List.findIdx_append]
    rw [List.findIdx_eq_length.mpr hu]
    simp [List.findIdx_cons, hkey]
  have htake : (S.filter (fun x => x.team = (sideObs sd M).team)).take u.length =
      (groupLE l (sideObs sd M).team M.data).take u.length := by
    rw [hguv, hgle, List.take_left, List.take_left]
  rw [hlook, hidx]
  exact rollColsAt_eq_of_take_eq w _ _ u.length htake

theorem unique_id_mem {l : List MatchRow} {x M : MatchRow}
    (huniq : l.Pairwise (fun a b => a.id_partida ≠ b.id_partida))
    (hx : x ∈ l) (hM : M ∈ l) (hid : x.id_partida = M.id_partida) : x = M := by
  induction l with
  | nil => simp at hx
  | cons y ys ih =>
    rcases List.pairwise_cons.mp huniq with ⟨hy, hys⟩
    rcases List.mem_cons.mp hx with rfl | hx'
    · rcases List.mem_cons.mp hM with rfl | hM'
      · rfl
      · exact absurd hid (hy M hM')
    · rcases List.mem_cons.mp hM with rfl | hM'
      · exact absurd hid.symm (hy x hx')
      · exact ih hys hx' hM'

theorem matchDateMap_eq (l : List MatchRow) (M : MatchRow)
    (huniq : l.Pairwise (fun a b => a.id_partida ≠ b.id_partida)) (hM : M ∈ l) :
    matchDateMap l M.id_partida = some M.data := by
  unfold matchDateMap
  have hMr : M ∈ l.reverse := by simpa using hM
  have hsome : (l.reverse.find? (fun m => m.id_partida == M.id_partida)).isSome := by
    rw [List.find?_isSome]
    exact ⟨M, hMr, by simp⟩
  cases hfind : l.reverse.find? (fun m => m.id_partida == M.id_partida) with
  | none =>
    rw [hfind] at hsome
    simp at hsome
  | some y =>
    have hy := List.find?_some hfind
    have hymem : y ∈ l := by simpa using List.mem_of_find?_eq_some hfind
    have hyM : y = M := unique_id_mem huniq hymem hM (by simpa using hy)
    simp [hyM]

theorem find?_map_fst_id {β : Type} (l : List MatchRow) (M : MatchRow)
    (F : MatchRow → MatchRow × β) (hF : ∀ m, (F m).1 = m)
    (huniq : l.Pairwise (fun a b => a.id_partida ≠ b.id_partida)) (hM : M ∈ l) :
    (l.map F).find? (fun r => r.1.id_partida == M.id_partida) = some (F M) := by
  induction l with
  | nil => simp at hM
  | cons x xs ih =>
    rcases List.pairwise_cons.mp huniq with ⟨hx, hxs⟩
    rcases List.mem_cons.mp hM with rfl | hMr
    · simp only [List.map_cons]
      rw [List.find?_cons_of_pos _ (by simp [hF])]
    · have hne : (x.id_partida == M.id_partida) = false := beq_eq_false_iff_ne.mpr (hx M hMr)
      simp only [List.map_cons]
      rw [List.find?_cons_of_neg _ (by simp [hF, hne])]
      exact ih hxs hMr

theorem teamMatchIds_filter (l : List MatchRow) (t : String) (d : Int) (L : List MatchRow)
    (hmem : ∀ m ∈ L, matchDateMap l m.id_partida = some m.data) :
    (teamMatchIds t L).filter (fun mid =>
      match matchDateMap l mid with
      | some dm => decide (dm < d)
      | none => false) =
    teamMatchIds t (L.filter (fun m => decide (m.data < d))) := by
  induction L with
  | nil => rfl
  | cons m rest ih =>
    have hm := hmem m (by simp)
    have ihr := ih (fun x hx => hmem x (by simp [hx]))
    by_cases hd : m.data < d <;>
      by_cases hc : m.time_casa = t <;>
      by_cases hf : m.time_fora = t <;>
      simp [teamMatchIds, List.filter_cons, List.filter_append, hc, hf, hm, hd, ihr]

theorem historyIds_localized (l : List MatchRow) (t : String) (d : Int)
    (huniq : l.Pairwise (fun a b => a.id_partida ≠ b.id_partida)) :
    historyIds l t d =
      teamMatchIds t (stableSort matchLt (l.filter (fun m => decide (m.data < d)))) := by
  unfold historyIds
  rw [teamMatchIds_filter l t d _ (by
    intro m hm
    exact matchDateMap_eq l m huniq ((stableSort_perm matchLt l).mem_iff.mp hm))]
  rw [stableSort_filter matchLt _ matchLt_asym matchLt_trans]

theorem keyRowFor_localized (l : List MatchRow) (ps : List PlayerStat) (w top_n : Nat)
    (M : MatchRow)
    (huniq : l.Pairwise (fun a b => a.id_partida ≠ b.id_partida)) (hM : M ∈ l) :
    keyRowFor l ps w top_n M.id_partida =
      some (M,
        keyListFor ps M.time_casa (lastN w (teamMatchIds M.time_casa
          (stableSort matchLt (l.filter (fun m => decide (m.data < M.data)))))) top_n,
        keyListFor ps M.time_fora (lastN w (teamMatchIds M.time_fora
          (stableSort matchLt (l.filter (fun m => decide (m.data < M.data)))))) top_n) := by
  unfold keyRowFor compute_key_players
  rw [find?_map_fst_id l M _ (fun m => rfl) huniq hM]
  rw [matchDateMap_eq l M huniq hM]
  simp only [Option.getD_some]
  rw [historyIds_localized l M.time_casa M.data huniq,
    historyIds_localized l M.time_fora M.data huniq]

theorem restRowFor_eq_of_filter_le (l1 l2 : List MatchRow) (M : MatchRow)
    (hM1 : M ∈ l1)
    (heq : l1.filter (fun m => decide (m.data ≤ M.data)) =
      l2.filter (fun m => decide (m.data ≤ M.data)))
    (hM2 : M ∈ l2) :
    restRowFor l1 M.id_partida = restRowFor l2 M.id_partida := by
  rw [restRowFor_localized l1 M hM1, restRowFor_localized l2 M hM2, heq]

/-- Claim C1 (amended): with unique match ids, the rest-days, rolling and
key-players outputs joined back for a match M are functions of the sub-table
of matches dated on or before M's date (so altering or removing matches dated
strictly after M's date never changes them), and the key-players outputs are
functions of the sub-table dated strictly before M's date alone.  Same-date
matches can influence M's rest-days and rolling outputs (see the
counterexample), so only KeyPlayersStage satisfies the claim as stated. -/
theorem C1_no_future_information (l1 l2 : List MatchRow) (M : MatchRow)
    (ps : List PlayerStat) (w top_n : Nat)
    (huniq1 : l1.Pairwise (fun a b => a.id_partida ≠ b.id_partida))
    (huniq2 : l2.Pairwise (fun a b => a.id_partida ≠ b.id_partida))
    (hM1 : M ∈ l1) (hM2 : M ∈ l2) :
    (l1.filter (fun m => decide (m.data ≤ M.data)) =
        l2.filter (fun m => decide (m.data ≤ M.data)) →
      restRowFor l1 M.id_partida = restRowFor l2 M.id_partida
      ∧ rollRowFor w l1 M.id_partida = rollRowFor w l2 M.id_partida
      ∧ keyRowFor l1 ps w top_n M.id_partida = keyRowFor l2 ps w top_n M.id_partida)
    ∧ (l1.filter (fun m => decide (m.data < M.data)) =
        l2.filter (fun m => decide (m.data < M.data)) →
      keyRowFor l1 ps w top_n M.id_partida = keyRowFor l2 ps w top_n M.id_partida) := by
  have hkey : ∀ hlt : l1.filter (fun m => decide (m.data < M.data)) =
      l2.filter (fun m => decide (m.data < M.data)),
      keyRowFor l1 ps w top_n M.id_partida = keyRowFor l2 ps w top_n M.id_partida := by
    intro hlt
    rw [keyRowFor_localized l1 ps w top_n M huniq1 hM1,
      keyRowFor_localized l2 ps w top_n M huniq2 hM2, hlt]
  constructor
  · intro heq
    have hlt : l1.filter (fun m => decide (m.data < M.data)) =
        l2.filter (fun m => decide (m.data < M.data)) := by
      have h1 : ∀ l : List MatchRow, l.filter (fun m => decide (m.data < M.data)) =
          (l.filter (fun m => decide (m.data ≤ M.data))).filter
            (fun m => decide (m.data < M.data)) := by
        intro l
        rw [List.filter_filter]
        exact (List.filter_congr (by
          intro x _
          by_cases h : x.data < M.data
          · simp [h, le_of_lt h]
          · simp [h])).symm
      rw [h1 l1, h1 l2, heq]
    refine ⟨restRowFor_eq_of_filter_le l1 l2 M hM1 heq hM2, ?_, hkey hlt⟩
    have hr1 : rollRowFor w l1 M.id_partida = some (M,
        lookupRoll (rolledLong w l1) M.id_partida true,
        lookupRoll (rolledLong w l1) M.id_partida false) := by
      unfold rollRowFor compute_rolling_stats
      exact find?_map_fst_id l1 M _ (fun m => rfl) huniq1 hM1
    have hr2 : rollRowFor w l2 M.id_partida = some (M,
        lookupRoll (rolledLong w l2) M.id_partida true,
        lookupRoll (rolledLong w l2) M.id_partida false) := by
      unfold rollRowFor compute_rolling_stats
      exact find?_map_fst_id l2 M _ (fun m => rfl) huniq2 hM2
    rw [hr1, hr2,
      lookupRoll_localized w l1 M true huniq1 hM1,
      lookupRoll_localized w l2 M true huniq2 hM2,
      lookupRoll_localized w l1 M false huniq1 hM1,
      lookupRoll_localized w l2 M false huniq2 hM2]
    have hgT : groupLE l1 (sideObs true M).team M.data =
        groupLE l2 (sideObs true M).team M.data := by
      unfold groupLE
      rw [heq]
    have hgF : groupLE l1 (sideObs false M).team M.data =
        groupLE l2 (sideObs false M).team M.data := by
      unfold groupLE
      rw [heq]
    rw [hgT, hgF]
  · exact hkey

/-- Claim C1, counterexample to the claim as stated: removing cexA — a match
dated on (not before) cexB's date and distinct from cexB — changes cexB's
rest_days_home output from 0 to null, so a feature of cexB depends on a
same-date match. -/
theorem C1_counterexample :
    restRowFor [cexA, cexB] cexB.id_partida = some (cexB, some 0, none)
    ∧ restRowFor [cexB] cexB.id_partida = some (cexB, none, none) := by
  constructor
  · decide
  · decide

theorem C1_witness :
    restRowFor [cexB, cexC] cexB.id_partida = restRowFor [cexB] cexB.id_partida := by
  have h := C1_no_future_information [cexB, cexC] [cexB] cexB [] 5 3
    (by decide) (by decide) (by simp) (by simp)
  exact (h.1 (by decide)).1

theorem rollColsAt_zero (w : Nat) (g : List Obs) : rollColsAt w g 0 = emptyRoll := by
  simp [rollColsAt, rollAt, windowVals, emptyRoll]

theorem rollAt_second (x : Option ℚ) (s : List (Option ℚ)) : rollAt 1 (x :: s) 1 = x := by
  cases x <;> simp [rollAt, windowVals]

theorem sideObs_id (sd : Bool) (m : MatchRow) :
    (sideObs sd m).id_partida = m.id_partida := by
  cases sd <;> rfl

theorem sideObs_data (sd : Bool) (m : MatchRow) : (sideObs sd m).data = m.data := by
  cases sd <;> rfl

theorem obs_source (l : List MatchRow) (o : Obs) (ho : o ∈ longRows l) :
    ∃ m ∈ l, o = sideObs o.side m := by
  rcases (mem_longRows l o).mp ho with ⟨m, hm, hc⟩
  rcases hc with rfl | rfl
  · exact ⟨m, hm, rfl⟩
  · exact ⟨m, hm, rfl⟩

/-- Claim C2: per team and metric, RollingStatsStage means the trailing
`window` observations excluding the current one: the value joined for a
team's first sorted observation is null in all four metrics (not zero), and
with window = 1 the goals-for value joined for the team's second observation
equals exactly the goals-for value of the team's first observation. -/
theorem C2_rolling_shifted (l : List MatchRow) (w : Nat) (t : String)
    (o1 : Obs) (rest : List Obs)
    (huniq : l.Pairwise (fun a b => a.id_partida ≠ b.id_partida))
    (hg : teamGroup l t = o1 :: rest) :
    lookupRoll (rolledLong w l) o1.id_partida o1.side = emptyRoll
    ∧ ∀ o2 rest2, rest = o2 :: rest2 →
        (lookupRoll (rolledLong 1 l) o2.id_partida o2.side).goals_for = o1.goals_for := by
  have ho1g : o1 ∈ teamGroup l t := by
    rw [hg]
    simp
  have ho1team : o1.team = t := by simpa using (List.mem_filter.mp ho1g).2
  have ho1L : o1 ∈ longRows l :=
    (stableSort_perm obsLt (longRows l)).mem_iff.mp (List.mem_of_mem_filter ho1g)
  rcases obs_source l o1 ho1L with ⟨m1, hm1, hsrc1⟩
  have hid1 : o1.id_partida = m1.id_partida := by
    rw [hsrc1]
    exact sideObs_id _ _
  have hteam1 : (sideObs o1.side m1).team = t := by
    rw [← hsrc1]
    exact ho1team
  have hdata1 : m1.data = o1.data := by
    rw [hsrc1]
    exact (sideObs_data _ _).symm
  have hkey1 : keyP m1.id_partida o1.side o1 = true := by simp [keyP, hid1]
  have hgle1 : groupLE l t o1.data =
      o1 :: rest.filter (fun x => decide (x.data ≤ o1.data)) := by
    rw [groupLE_eq_filter,
      show ((stableSort obsLt (longRows l)).filter (fun o => o.team = t)) = teamGroup l t
        from rfl, hg, List.filter_cons]
    simp
  have hidx1 : (groupLE l t o1.data).findIdx (keyP m1.id_partida o1.side) = 0 := by
    rw [hgle1]
    simp [List.findIdx_cons, hkey1]
  have hloc1 := lookupRoll_localized w l m1 o1.side huniq hm1
  constructor
  · rw [hid1]
    rw [hteam1, hdata1] at hloc1
    rw [hloc1, hidx1]
    exact rollColsAt_zero w _
  · intro o2 rest2 hrest
    subst hrest
    have ho2g : o2 ∈ teamGroup l t := by
      rw [hg]
      simp
    have ho2team : o2.team = t := by simpa using (List.mem_filter.mp ho2g).2
    have ho2L : o2 ∈ longRows l :=
      (stableSort_perm obsLt (longRows l)).mem_iff.mp (List.mem_of_mem_filter ho2g)
    rcases obs_source l o2 ho2L with ⟨m2, hm2, hsrc2⟩
    have hid2 : o2.id_partida = m2.id_partida := by
      rw [hsrc2]
      exact sideObs_id _ _
    have hteam2 : (sideObs o2.side m2).team = t := by
      rw [← hsrc2]
      exact ho2team
    have hdata2 : m2.data = o2.data := by
      rw [hsrc2]
      exact (sideObs_data _ _).symm
    have hkey2 : keyP m2.id_partida o2.side o2 = true := by simp [keyP, hid2]
    have hsorted : (teamGroup l t).Pairwise (fun a b => obsLt b a = false) :=
      List.Pairwise.sublist (List.filter_sublist _)
        (stableSort_pairwise obsLt obsLt_asym obsLt_trans _)
    rw [hg] at hsorted
    have hrel : obsLt o2 o1 = false :=
      (List.pairwise_cons.mp hsorted).1 o2 (by simp)
    have hd12 : o1.data ≤ o2.data :=
      obsLt_false_dates hrel (by rw [ho2team, ho1team])
    have hfil2 := sorted_filter_key l m2 o2.side huniq hm2
    have hgfil2 := group_filter_of_singleton _ _ _ hfil2
    rw [hteam2] at hgfil2
    rw [← hsrc2] at hgfil2
    rw [show ((stableSort obsLt (longRows l)).filter (fun x => x.team = t)) = teamGroup l t
      from rfl, hg] at hgfil2
    cases hk1 : keyP m2.id_partida o2.side o1 with
    | true =>
      exfalso
      rw [List.filter_cons, if_pos hk1, List.filter_cons, if_pos hkey2] at hgfil2
      simp at hgfil2
    | false =>
      have hgle2 : groupLE l t o2.data =
          o1 :: o2 :: rest2.filter (fun x => decide (x.data ≤ o2.data)) := by
        rw [groupLE_eq_filter,
          show ((stableSort obsLt (longRows l)).filter (fun o => o.team = t)) = teamGroup l t
            from rfl, hg, List.filter_cons, List.filter_cons]
        simp [hd12]
      have hidx2 : (groupLE l t o2.data).findIdx (keyP m2.id_partida o2.side) = 1 := by
        rw [hgle2]
        simp [List.findIdx_cons, hk1, hkey2]
      have hval : (rollColsAt 1 (groupLE l t o2.data) 1).goals_for = o1.goals_for := by
        rw [hgle2]
        simp only [rollColsAt, List.map_cons]
        exact rollAt_second _ _
      have hloc2 := lookupRoll_localized 1 l m2 o2.side huniq hm2
      rw [hteam2, hdata2] at hloc2
      rw [hid2, hloc2, hidx2]
      exact hval

theorem C2_witness :
    lookupRoll (rolledLong 5 [cexD, cexE]) 1 true = emptyRoll
    ∧ (lookupRoll (rolledLong 1 [cexD, cexE]) 2 true).goals_for = some 2 := by
  have h := C2_rolling_shifted [cexD, cexE] 5 ("A") (homeObs cexD) [homeObs cexE]
    (by decide) (by decide)
  exact ⟨h.1, h.2 (homeObs cexE) [] rfl⟩

/-- Claim C4 (amended): team-coordinate resolution prefers the caller override
table and matches it by exact comparison of lowercased names (no accent or
punctuation normalization); the static built-in table is consulted only when
the override misses, and by exact (case-sensitive) name; an unresolved name
yields null rather than an error. -/
theorem C4_team_resolution (team s1 s2 : String) (ti : Option (List TeamInfo))
    (c : ℚ × ℚ) :
    (overrideLookup ti team = some c → resolve_team_coords team ti = some c)
    ∧ (overrideLookup ti team = none →
        resolve_team_coords team ti = lookupStr TEAM_COORDINATES team)
    ∧ (pyLower s1 = pyLower s2 → overrideLookup ti s1 = overrideLookup ti s2)
    ∧ (overrideLookup ti team = none → lookupStr TEAM_COORDINATES team = none →
        resolve_team_coords team ti = none) := by
  refine ⟨?_, ?_, ?_, ?_⟩
  · intro h
    simp [resolve_team_coords, h]
  · intro h
    simp [resolve_team_coords, h]
  · intro h
    unfold overrideLookup
    cases ti with
    | none => rfl
    | some rows => rw [h]
  · intro h1 h2
    simp [resolve_team_coords, h1, h2]

/-- Claim C4, counterexample to the claim as stated: the static built-in table
is matched by exact name, so two spellings differing only in case do not
resolve to the same coordinate — "Flamengo" resolves from the built-in table
while "FLAMENGO" yields null. -/
theorem C4_counterexample :
    (resolve_team_coords ("Flamengo") none).isSome = true
    ∧ resolve_team_coords ("FLAMENGO") none = none := by
  constructor
  · decide
  · decide

theorem C4_witness :
    overrideLookup (some cexOverride) ("PALMEIRAS") =
      overrideLookup (some cexOverride) ("palmeiras") :=
  (C4_team_resolution ("x") ("PALMEIRAS") ("palmeiras") (some cexOverride) (0, 0)).2.2.1
    (by decide)

/-- Claim C5 (amended): per match side, when either the team or the match-city
coordinate fails to resolve the emitted travel value is null, even if the
home-city substring test holds (the null check precedes it); when both
coordinates resolve, the value is 0.0 if the non-empty city hint contains the
normalized team name as a substring, and the haversine distance of the two
coordinates otherwise; the stage emits exactly these per-side values. -/
theorem C5_travel_dispatch (team : String) (ti : Option (List TeamInfo))
    (ch : Option String) (mc : Option (ℚ × ℚ)) (bc : ℚ × ℚ)
    (l : List MatchRow) (csm : Option (List (String × String))) :
    (resolve_team_coords team ti = none ∨ mc = none → sideTravel team ti ch mc = none)
    ∧ (∀ mcv : ℚ × ℚ, resolve_team_coords team ti = some bc → mc = some mcv →
        sideTravel team ti ch mc =
          if cityTeamHomeHint ch team then some 0
          else some (haversine_distance_km (bc.1 : ℝ) (bc.2 : ℝ) (mcv.1 : ℝ) (mcv.2 : ℝ)))
    ∧ compute_travel_distance l ti csm = l.map (fun m =>
        (m, sideTravel m.time_casa ti (cityHints m.cidade_jogo csm).1
              (resolve_city_coords (cityHints m.cidade_jogo csm).2),
            sideTravel m.time_fora ti (cityHints m.cidade_jogo csm).1
              (resolve_city_coords (cityHints m.cidade_jogo csm).2))) := by
  refine ⟨?_, ?_, rfl⟩
  · rintro (h | h)
    · unfold sideTravel
      rw [h]
    · unfold sideTravel
      rw [h]
      cases resolve_team_coords team ti <;> rfl
  · intro mcv h1 h2
    unfold sideTravel
    rw [h1, h2]

/-- Claim C5, counterexample to the claim as stated: in cexF the home team's
normalized name is a substring of the normalized city hint and the city
coordinate resolves, yet the emitted home travel value is null rather than
0.0, because the team coordinate does not resolve and the null check precedes
the home-city test. -/
theorem C5_counterexample :
    cityTeamHomeHint (cityHints cexF.cidade_jogo none).1 cexF.time_casa = true
    ∧ resolve_city_coords (cityHints cexF.cidade_jogo none).2 ≠ none
    ∧ compute_travel_distance [cexF] none none = [(cexF, none, none)] := by
  have hx : resolve_team_coords ("Xyz") none = none := by decide
  have hz : resolve_team_coords ("Zzz") none = none := by decide
  have hsx : ∀ ch mc, sideTravel ("Xyz") none ch mc = none := by
    intro ch mc
    unfold sideTravel
    rw [hx]
  have hsz : ∀ ch mc, sideTravel ("Zzz") none ch mc = none := by
    intro ch mc
    unfold sideTravel
    rw [hz]
  refine ⟨by decide, by decide, ?_⟩
  unfold compute_travel_distance
  simp [hsx, hsz, cexF]

theorem C5_witness : sideTravel ("Zzz") none none none = none :=
  (C5_travel_dispatch ("Zzz") none none none (0, 0) [] none).1 (Or.inr rfl)

theorem bankerRound_bounds {α : Type} [LinearOrderedField α] [FloorRing α] (x : α) :
    ⌊x⌋ ≤ bankerRound x ∧ bankerRound x ≤ ⌊x⌋ + 1 := by
  unfold bankerRound
  split_ifs <;> omega

theorem bankerRound_mono {α : Type} [LinearOrderedField α] [FloorRing α] {x y : α}
    (h : x ≤ y) : bankerRound x ≤ bankerRound y := by
  have hf : ⌊x⌋ ≤ ⌊y⌋ := Int.floor_mono h
  rcases lt_or_eq_of_le hf with hlt | heq
  · have h1 := (bankerRound_bounds x).2
    have h2 := (bankerRound_bounds y).1
    omega
  · have hy : (⌊y⌋ : α) = (⌊x⌋ : α) := by
      rw [heq]
    unfold bankerRound
    rw [← heq]
    rw [heq, hy]
    split_ifs <;> first | omega | (exfalso; linarith)

theorem pyRound_mono {x y : ℚ} (n : Nat) (h : x ≤ y) : pyRound x n ≤ pyRound y n := by
  unfold pyRound
  have h1 : x * 10 ^ n ≤ y * 10 ^ n := by
    apply mul_le_mul_of_nonneg_right h
    positivity
  have h2 : ((bankerRound (x * 10 ^ n) : ℤ) : ℚ) ≤ ((bankerRound (y * 10 ^ n) : ℤ) : ℚ) := by
    exact_mod_cast bankerRound_mono h1
  have hp : (0 : ℚ) < 10 ^ n := by positivity
  exact (div_le_div_iff_of_pos_right hp).mpr h2

/-- Claim C7: for a fixed stage factor the importance value is monotonically
non-increasing in the sum of the clamped gaps; with both gaps zero the value
is exactly the stage factor (for either of the two stage factors the source
produces); and team_score returns exactly the stage factor whenever the team's
points equal both cutoff rows' points. -/
theorem C7_importance_monotone (st : List Standing) (params : ImportanceParams)
    (team : String) (rv : Int ⊕ String) (r : Int) (teamRow g4row z4row : Standing) :
    (∀ sf g1 g2 g1p g2p : ℚ, 0 ≤ sf →
      max g1 0 + max g2 0 ≤ max g1p 0 + max g2p 0 →
      importanceValue sf g1p g2p ≤ importanceValue sf g1 g2)
    ∧ (∀ sf : ℚ, sf = 1 ∨ sf = 1 / 2 → importanceValue sf 0 0 = sf)
    ∧ (parseRodada rv = some r →
        (st.filter (fun row => row.rodada == r)).find?
          (fun row => pyLower row.time == pyLower team) = some teamRow →
        (st.filter (fun row => row.rodada == r)).find?
          (fun row => row.posicao == params.g4_cutoff) = some g4row →
        (st.filter (fun row => row.rodada == r)).find?
          (fun row => row.posicao == params.z4_cutoff) = some z4row →
        g4row.pontos = teamRow.pontos → z4row.pontos = teamRow.pontos →
        team_score st params team (some rv) =
          some (if r ≥ params.high_round_threshold then 1 else 1 / 2)) := by
  have hzero : ∀ sf : ℚ, sf = 1 ∨ sf = 1 / 2 → importanceValue sf 0 0 = sf := by
    intro sf hsf
    rcases hsf with rfl | rfl
    · norm_num [importanceValue, pyRound, bankerRound]
    · norm_num [importanceValue, pyRound, bankerRound]
  refine ⟨?_, hzero, ?_⟩
  · intro sf g1 g2 g1p g2p hsf hle
    unfold importanceValue
    apply pyRound_mono
    have h0 : (0 : ℚ) ≤ max g1 0 + max g2 0 := by positivity
    have hpos : (0 : ℚ) < 1 + max g1 0 + max g2 0 := by linarith
    have hposp : (0 : ℚ) < 1 + max g1p 0 + max g2p 0 := by linarith
    apply mul_le_mul_of_nonneg_right
    · rw [div_le_div_iff₀ hposp hpos]
      linarith
    · exact hsf
  · intro hr hteam hg4 hz4 hgp hzp
    have htne : (st.filter (fun row => row.rodada == r)).isEmpty = false := by
      cases htab : st.filter (fun row => row.rodada == r) with
      | nil =>
        rw [htab] at hteam
        simp at hteam
      | cons a as => rfl
    simp only [team_score]
    rw [hr]
    simp only [htne, Bool.false_eq_true, if_false, hteam, hg4, hz4]
    rw [hgp, hzp]
    have : importanceValue (if r ≥ params.high_round_threshold then 1 else 1 / 2)
        (teamRow.pontos - teamRow.pontos) (teamRow.pontos - teamRow.pontos) =
        (if r ≥ params.high_round_threshold then (1 : ℚ) else 1 / 2) := by
      rw [sub_self]
      apply hzero
      split_ifs
      · exact Or.inl rfl
      · exact Or.inr rfl
    rw [this]

theorem C7_witness :
    (importanceValue 1 1 0 ≤ importanceValue 1 0 0 ∧ importanceValue 1 0 0 = 1)
    ∧ team_score cexStandings ⟨28, 4, 17⟩ ("x") (some (Sum.inl 30)) = some 1 := by
  have h := C7_importance_monotone cexStandings ⟨28, 4, 17⟩ ("x") (Sum.inl 30) 30
    ⟨30, "x", 4, 50⟩ ⟨30, "x", 4, 50⟩ ⟨30, "y", 17, 50⟩
  refine ⟨⟨h.1 1 0 0 1 0 (by norm_num) (by simp), h.2.1 1 (Or.inl rfl)⟩, ?_⟩
  have h3 := h.2.2 (by decide) (by decide) (by decide) (by decide) rfl rfl
  rw [h3]
  norm_num

/-- Claim C8: missing or unresolvable auxiliary data degrades to null and the
stages still return a full output table: an unresolved team or city coordinate
gives a null travel value for that side; an absent or empty standings table
gives entirely-null importance columns; a missing round value, an unparsable
round token, a round absent from the standings, a team absent from the round,
or an absent G4/Z4 rank row each give a null importance; and both stages
return one output row per input row. -/
theorem C8_null_degradation (l : List MatchRow) (params : ImportanceParams)
    (team : String) (ti : Option (List TeamInfo)) (ch : Option String)
    (mc : Option (ℚ × ℚ)) (st : List Standing) (rv : Int ⊕ String) (r : Int) :
    (resolve_team_coords team ti = none ∨ mc = none → sideTravel team ti ch mc = none)
    ∧ compute_importance_score l none params = l.map (fun m => (m, none, none))
    ∧ compute_importance_score l (some []) params = l.map (fun m => (m, none, none))
    ∧ team_score st params team none = none
    ∧ (parseRodada rv = none → team_score st params team (some rv) = none)
    ∧ (parseRodada rv = some r → (st.filter (fun row => row.rodada == r)).isEmpty = true →
        team_score st params team (some rv) = none)
    ∧ (parseRodada rv = some r →
        (st.filter (fun row => row.rodada == r)).find?
          (fun row => pyLower row.time == pyLower team) = none →
        team_score st params team (some rv) = none)
    ∧ (parseRodada rv = some r →
        ((st.filter (fun row => row.rodada == r)).find?
            (fun row => row.posicao == params.g4_cutoff) = none ∨
          (st.filter (fun row => row.rodada == r)).find?
            (fun row => row.posicao == params.z4_cutoff) = none) →
        team_score st params team (some rv) = none)
    ∧ (compute_importance_score l (some st) params).length = l.length
    ∧ ∀ csm, (compute_travel_distance l ti csm).length = l.length := by
  refine ⟨?_, rfl, rfl, rfl, ?_, ?_, ?_, ?_, ?_, ?_⟩
  · rintro (h | h)
    · unfold sideTravel
      rw [h]
    · unfold sideTravel
      rw [h]
      cases resolve_team_coords team ti <;> rfl
  · intro h
    simp only [team_score]
    rw [h]
  · intro h1 h2
    simp only [team_score]
    rw [h1]
    simp [h2]
  · intro h1 h2
    simp only [team_score]
    rw [h1]
    by_cases he : (st.filter (fun row => row.rodada == r)).isEmpty
    · simp [he]
    · simp only [he, Bool.false_eq_true, if_false, h2]
  · intro h1 h2
    simp only [team_score]
    rw [h1]
    by_cases he : (st.filter (fun row => row.rodada == r)).isEmpty
    · simp [he]
    · cases hteam : (st.filter (fun row => row.rodada == r)).find?
        (fun row => pyLower row.time == pyLower team) with
      | none => simp [he, hteam]
      | some teamRow =>
        rcases h2 with h2 | h2
        · simp [he, hteam, h2]
        · cases hg : (st.filter (fun row => row.rodada == r)).find?
            (fun row => row.posicao == params.g4_cutoff) with
          | none => simp [he, hteam, hg]
          | some g4row => simp [he, hteam, hg, h2]
  · unfold compute_importance_score
    by_cases he : st.isEmpty <;> simp [he]
  · intro csm
    unfold compute_travel_distance
    simp

theorem C8_witness :
    team_score [] ⟨28, 4, 17⟩ ("x") (some (Sum.inr ("abc"))) = none :=
  (C8_null_degradation [] ⟨28, 4, 17⟩ ("x") none none none [] (Sum.inr ("abc")) 0).2.2.2.2.1
    (by decide)

theorem keyLt_asym (a b : KeyPlayer) (h : keyLt a b = true) : keyLt b a = false := by
  simp only [keyLt, decide_eq_true_eq] at h
  simp only [keyLt, decide_eq_false_iff_not]
  omega

theorem keyLt_trans (a b c : KeyPlayer) (h1 : keyLt b a = false)
    (h2 : keyLt c b = false) : keyLt c a = false := by
  simp only [keyLt, decide_eq_false_iff_not] at h1 h2 ⊢
  omega

theorem keyLt_false_iff (a b : KeyPlayer) :
    keyLt b a = false ↔ (b.score < a.score ∨ (b.score = a.score ∧ b.gols ≤ a.gols)) := by
  simp only [keyLt, decide_eq_false_iff_not]
  omega

/-- Claim C6: every key_players list has at most top_n entries, is sorted
descending by (score, goals) with goals as tie-break, each entry carries
score = goals + assists summed over the recent window, and the list is empty
when no player-stat row of the team falls among the recent match ids; the
stage emits exactly these per-side lists. -/
theorem C6_key_players (ps : List PlayerStat) (team : String) (recent : List Nat)
    (top_n : Nat) (l : List MatchRow) (w : Nat) :
    (keyListFor ps team recent top_n).length ≤ top_n
    ∧ (keyListFor ps team recent top_n).Pairwise
        (fun a b => b.score < a.score ∨ (b.score = a.score ∧ b.gols ≤ a.gols))
    ∧ (∀ kp ∈ keyListFor ps team recent top_n, kp.score = kp.gols + kp.assistencias)
    ∧ (qualifyingRows ps team recent = [] → keyListFor ps team recent top_n = [])
    ∧ compute_key_players l ps w top_n = l.map (fun m =>
        (m, keyListFor ps m.time_casa
              (lastN w (historyIds l m.time_casa ((matchDateMap l m.id_partida).getD 0)))
              top_n,
            keyListFor ps m.time_fora
              (lastN w (historyIds l m.time_fora ((matchDateMap l m.id_partida).getD 0)))
              top_n)) := by
  refine ⟨?_, ?_, ?_, ?_, rfl⟩
  · simp only [keyListFor]
    by_cases he : (qualifyingRows ps team recent).isEmpty
    · simp [he]
    · simp only [he, Bool.false_eq_true, if_false]
      rw [List.length_take]
      exact min_le_left _ _
  · simp only [keyListFor]
    by_cases he : (qualifyingRows ps team recent).isEmpty
    · simp [he]
    · simp only [he, Bool.false_eq_true, if_false]
      have hsorted := stableSort_pairwise keyLt keyLt_asym keyLt_trans
        ((stableSort pidLt (((qualifyingRows ps team recent).map
          (fun r => r.id_jogador)).dedup)).map (fun pid =>
            let g := (qualifyingRows ps team recent).filter (fun r => r.id_jogador == pid)
            let gl := (g.map (fun r => r.gols)).sum
            let asst := (g.map (fun r => r.assistencias)).sum
            KeyPlayer.mk pid gl asst (gl + asst)))
      have htake := List.Pairwise.sublist (List.take_sublist top_n _) hsorted
      exact htake.imp (fun h => (keyLt_false_iff _ _).mp h)
  · simp only [keyListFor]
    by_cases he : (qualifyingRows ps team recent).isEmpty
    · simp [he]
    · simp only [he, Bool.false_eq_true, if_false]
      intro kp hkp
      have h1 : kp ∈ stableSort keyLt ((stableSort pidLt (((qualifyingRows ps team
          recent).map (fun r => r.id_jogador)).dedup)).map (fun pid =>
            let g := (qualifyingRows ps team recent).filter (fun r => r.id_jogador == pid)
            let gl := (g.map (fun r => r.gols)).sum
            let asst := (g.map (fun r => r.assistencias)).sum
            KeyPlayer.mk pid gl asst (gl + asst))) :=
        (List.take_sublist _ _).mem hkp
      have h2 := (stableSort_perm keyLt _).mem_iff.mp h1
      rcases List.mem_map.mp h2 with ⟨pid, _, hkp2⟩
      rw [← hkp2]
  · intro h
    simp [keyListFor, h]

theorem C6_witness : keyListFor [cexStat] "B" [1] 3 = [] :=
  (C6_key_players [cexStat] "B" [1] 3 [] 5).2.2.2.1 (by decide)

/-- Claim C9 (amended): RollingStatsStage appends exactly eight new columns,
one per metric and side, but their names keep the intermediate "_roll" suffix
of the transform columns: {metric}_roll_last{window}_{home,away} — for the
default window of 5, goals_for_roll_last5_home and its seven siblings. -/
theorem C9_rolling_column_names :
    (∀ w : Nat, (rollColumnNames w).length = 8)
    ∧ rollColumnNames 5 =
      ["goals_for_roll_last5_home", "goals_against_roll_last5_home",
       "xg_for_roll_last5_home", "xg_against_roll_last5_home",
       "goals_for_roll_last5_away", "goals_against_roll_last5_away",
       "xg_for_roll_last5_away", "xg_against_roll_last5_away"] := by
  constructor
  · intro w
    simp [rollColumnNames, rollMetrics]
  · decide

/-- Claim C9, counterexample to the claim as stated: the stage's columns are
not named {metric}_last{window}_{side} — goals_for_last5_home is absent while
goals_for_roll_last5_home is present. -/
theorem C9_counterexample :
    "goals_for_last5_home" ∉ rollColumnNames 5
    ∧ "goals_for_roll_last5_home" ∈ rollColumnNames 5 := by
  constructor
  · decide
  · decide

/-- Claim C10: each stage returns one output row per input row, the match
record of every row preserved unchanged beside the appended feature values:
travel, rolling, key-players and importance keep the input row order, while
rest-days returns the rows of the date-sorted copy, a permutation of the
input; row count and the multiset of match ids are therefore unchanged (the
embedding is a pure function, so the caller's input list itself is never
mutated). -/
theorem C10_frame (l : List MatchRow) (ti : Option (List TeamInfo))
    (csm : Option (List (String × String))) (ps : List PlayerStat)
    (standings : Option (List Standing)) (params : ImportanceParams) (w top_n : Nat)
    (huniq : l.Pairwise (fun a b => a.id_partida ≠ b.id_partida)) :
    (compute_travel_distance l ti csm).map Prod.fst = l
    ∧ ((compute_rest_days l).map Prod.fst).Perm l
    ∧ (compute_rolling_stats w l).map Prod.fst = l
    ∧ (compute_key_players l ps w top_n).map Prod.fst = l
    ∧ (compute_importance_score l standings params).map Prod.fst = l
    ∧ (compute_rest_days l).length = l.length
    ∧ ((compute_rest_days l).map (fun r => r.1.id_partida)).Perm
        (l.map (fun m => m.id_partida)) := by
  have hrest : ((compute_rest_days l).map Prod.fst).Perm l := by
    unfold compute_rest_days
    rw [restDaysAux_map_fst]
    exact stableSort_perm matchLt l
  refine ⟨?_, hrest, ?_, ?_, ?_, ?_, ?_⟩
  · unfold compute_travel_distance
    rw [List.map_map]
    exact List.map_id l
  · unfold compute_rolling_stats
    rw [List.map_map]
    exact List.map_id l
  · unfold compute_key_players
    rw [List.map_map]
    exact List.map_id l
  · unfold compute_importance_score
    cases standings with
    | none =>
      rw [List.map_map]
      exact List.map_id l
    | some st =>
      by_cases he : st.isEmpty <;>
        simp only [he, Bool.false_eq_true, if_true, if_false, List.map_map] <;>
        exact List.map_id l
  · have := hrest.length_eq
    simpa using this
  · have h := hrest.map (fun m => m.id_partida)
    rw [List.map_map] at h
    exact h

theorem C10_witness :
    (compute_rest_days [cexA]).length = [cexA].length :=
  (C10_frame [cexA] none none [] none ⟨28, 4, 17⟩ 5 3 (by decide)).2.2.2.2.2.1
